import Mathlib

/-!
# Verification of the NIST-PQC RAG retrieval and citation pipeline

This file is a shallow embedding, in Lean 4, of the core algorithms of a
retrieval-augmented question-answering system over NIST post-quantum
cryptography standards, together with proofs and refutations of the
invariants stated in its specification.

Embedding conventions:
* Python `float` values are modelled as exact rationals (`ℚ`);
* Python `str` is modelled as Lean `String`, with ASCII semantics for
  case folding, whitespace and word characters;
* Python insertion-ordered `dict`s are modelled as association lists that
  update values in place and append new keys at the end;
* Python `sorted` (a stable sort) is modelled by `List.insertionSort`
  with a reflexive total relation derived from the sort key;
* code that can raise is modelled in the `Except` monad;
* external effectful collaborators (vector index, LLM generator, chunk
  store on disk) are taken as explicit function parameters.

Each embedded definition carries the name of the Python function it
translates (module and symbol).
-/

/-! ## Python string primitives -/

/-- ASCII whitespace, the characters matched by Python `str.strip()` and
regex `\s` on the inputs considered here. -/
def pyIsSpace (c : Char) : Bool :=
  c = ' ' ∨ c = '\t' ∨ c = '\n' ∨ c = '\r' ∨ c = '\x0b' ∨ c = '\x0c'

/-- Python word character (regex `\w`, ASCII): letters, digits, underscore. -/
def pyIsWord (c : Char) : Bool :=
  ('a' ≤ c ∧ c ≤ 'z') ∨ ('A' ≤ c ∧ c ≤ 'Z') ∨ ('0' ≤ c ∧ c ≤ '9') ∨ c = '_'

/-- ASCII decimal digit (regex `\d`). -/
def pyIsDigit (c : Char) : Bool := '0' ≤ c ∧ c ≤ '9'

/-- ASCII lowering of one character (Python `str.lower` on ASCII input). -/
def pyLowerChar (c : Char) : Char := c.toLower

/-- Python `str.lower()` (ASCII). -/
def pyLower (s : String) : String := ⟨s.data.map pyLowerChar⟩

/-- Strip characters satisfying `p` from both ends of a character list. -/
def stripWith (p : Char → Bool) (l : List Char) : List Char :=
  ((l.dropWhile p).reverse.dropWhile p).reverse

/-- Python `str.strip()` with no argument: remove leading and trailing
whitespace. -/
def pyStrip (s : String) : String := ⟨stripWith pyIsSpace s.data⟩

/-- Python `str.strip(chars)`: remove leading and trailing characters
belonging to `chars`. -/
def pyStripChars (chars : String) (s : String) : String :=
  ⟨stripWith (fun c => chars.data.contains c) s.data⟩

/-- Python substring test `needle in hay` on character lists. -/
def subMem (n : List Char) : List Char → Bool
  | [] => n.isEmpty
  | c :: t => n.isPrefixOf (c :: t) || subMem n t

/-- Python substring test `needle in hay` for strings. -/
def strIn (needle hay : String) : Bool := subMem needle.data hay.data

/-- Python `str.startswith`. -/
def pyStartsWith (s pre : String) : Bool := pre.data.isPrefixOf s.data

/-! ## Chunker (`rag/chunk.py`)

`ChunkConfig` and `pack_blocks_into_chunks` translated from
`src/rag/chunk.py`.  Sizes are natural numbers (the Python code only ever
uses non-negative configuration values and `len`s). -/

/-- `rag/chunk.py` `ChunkConfig`. -/
structure ChunkConfig where
  target_chars : Nat := 1400
  overlap_blocks : Nat := 1
  min_chars : Nat := 250
  max_chars : Nat := 2200

/-- The Python expression `"\n\n".join(cur)`. -/
def joinBlocks : List String → String
  | [] => ""
  | [b] => b
  | b :: rest => b ++ "\n\n" ++ joinBlocks rest

/-- Mutable state of `pack_blocks_into_chunks`: emitted chunks, current
block buffer `cur`, and the tracked running length `cur_len`. -/
structure PackState where
  chunks : List String
  cur : List String
  cur_len : Nat

/-- The inner `flush()` closure of `pack_blocks_into_chunks`
(`rag/chunk.py` lines 180-193): emit the buffer when long enough and
carry the last `overlap_blocks` blocks forward, recomputing `cur_len`
for the carried blocks. -/
def flushPack (cfg : ChunkConfig) (st : PackState) : PackState :=
  if st.cur = [] then st
  else
    let text := pyStrip (joinBlocks st.cur)
    let chunks := if cfg.min_chars ≤ text.length then st.chunks ++ [text] else st.chunks
    let carry := if 0 < cfg.overlap_blocks then st.cur.drop (st.cur.length - cfg.overlap_blocks) else []
    { chunks := chunks
      cur := carry
      cur_len := (carry.map String.length).sum + 2 * (carry.length - 1) }

/-- One iteration of the `for blk in blocks` loop of
`pack_blocks_into_chunks` (`rag/chunk.py` lines 195-214).  Note that the
final `else` branch sets `cur_len := len(blk)` even though `cur` still
holds the blocks carried over by `flush()` — exactly as the source does. -/
def packStep (cfg : ChunkConfig) (st : PackState) (blk : String) : PackState :=
  let blk_len := blk.length
  if cfg.max_chars < blk_len ∧ st.cur = [] then
    { st with chunks := st.chunks ++ [pyStrip blk] }
  else
    let proposed := st.cur_len + (if st.cur = [] then 0 else 2) + blk_len
    if proposed ≤ cfg.target_chars ∨ (proposed ≤ cfg.max_chars ∧ st.cur_len < cfg.min_chars) then
      { st with cur := st.cur ++ [blk], cur_len := proposed }
    else
      let st1 := flushPack cfg st
      if cfg.max_chars < blk.length ∧ st1.cur = [] then
        { st1 with chunks := st1.chunks ++ [pyStrip blk] }
      else
        { st1 with cur := st1.cur ++ [blk], cur_len := blk.length }

/-- `rag/chunk.py` `pack_blocks_into_chunks`. -/
def pack_blocks_into_chunks (blocks : List String) (cfg : ChunkConfig) : List String :=
  (flushPack cfg (blocks.foldl (packStep cfg) ⟨[], [], 0⟩)).chunks

/-- Emitted chunks are either at least `min_chars` long or a stripped
oversized standalone block. -/
def packEmitOk (blocks : List String) (cfg : ChunkConfig) (c : String) : Prop :=
  cfg.min_chars ≤ c.length ∨ ∃ b ∈ blocks, cfg.max_chars < b.length ∧ c = pyStrip b

/-! ## Retrieval evaluation metrics (`src/eval/metrics.py`) -/

/-- A retrieval hit row as consumed by the metric functions (the
`doc_id` / `start_page` / `end_page` fields of the hit dictionaries). -/
structure EvalHit where
  doc_id : String
  start_page : Int
  end_page : Int
deriving DecidableEq

/-- A labeled gold span `(doc_id, start_page, end_page)`. -/
structure GoldSpan where
  doc_id : String
  start_page : Int
  end_page : Int
deriving DecidableEq

/-- `eval/metrics.py` `spans_overlap`: inclusive page-range overlap. -/
def spans_overlap (start_a end_a start_b end_b : Int) : Bool :=
  ¬ (end_a < start_b ∨ end_b < start_a)

/-- `eval/metrics.py` `hit_matches_gold`: same `doc_id` and overlapping
inclusive page ranges. -/
def hit_matches_gold (hit : EvalHit) (gold : GoldSpan) : Bool :=
  hit.doc_id = gold.doc_id ∧
    spans_overlap hit.start_page hit.end_page gold.start_page gold.end_page

/-- The inner `for i, g in enumerate(gold)` loop of `recall_at_k`: walk
the gold spans with their used flags, mark the first unused span the hit
matches, and report whether one was marked (`break`). -/
def markFirst (hit : EvalHit) : List (GoldSpan × Bool) → List (GoldSpan × Bool) × Bool
  | [] => ([], false)
  | (g, used) :: t =>
    if ¬ used ∧ hit_matches_gold hit g then ((g, true) :: t, true)
    else
      let r := markFirst hit t
      ((g, used) :: r.1, r.2)

/-- One iteration of the outer `for hit in hits[:k]` loop of
`recall_at_k`: update the used flags and the `matched` counter. -/
def recallStep (st : List (GoldSpan × Bool) × Nat) (hit : EvalHit) :
    List (GoldSpan × Bool) × Nat :=
  let r := markFirst hit st.1
  (r.1, st.2 + if r.2 then 1 else 0)

/-- `eval/metrics.py` `recall_at_k`. -/
def recall_at_k (hits : List EvalHit) (gold : List GoldSpan) (k : Nat) : ℚ :=
  if gold = [] then 0
  else
    let fin := (hits.take k).foldl recallStep (gold.map (fun g => (g, false)), 0)
    (fin.2 : ℚ) / (gold.length : ℚ)

/-- The number of gold spans matched by at least one of the first `k`
hits.  This follows the claim wording ("the number of gold spans g such
that at least one of the first k hits has the same doc_id as g and an
inclusively overlapping page range"), for comparison with the code. -/
def specGoldCovered (hits : List EvalHit) (gold : List GoldSpan) (k : Nat) : Nat :=
  (gold.filter (fun g => (hits.take k).any (fun h => hit_matches_gold h g))).length

/-- The recall value asserted by the claim: covered gold spans over all
gold spans. -/
def specRecall (hits : List EvalHit) (gold : List GoldSpan) (k : Nat) : ℚ :=
  if gold = [] then 0 else (specGoldCovered hits gold k : ℚ) / (gold.length : ℚ)

/-- Count of marked gold spans. -/
def countMarked (l : List (GoldSpan × Bool)) : Nat := l.countP (fun p => p.2)

/-- A gold span is covered by a hit list when some hit matches it. -/
def goldCovered (hs : List EvalHit) (g : GoldSpan) : Bool :=
  hs.any (fun h => hit_matches_gold h g)


/-! ## Stable sorting by key

Python `sorted(xs, key=K)` is a stable ascending sort by `K`.  We model
it with `List.insertionSort` under the reflexive total relation
`K a ≤ K b`: equal keys keep their original relative order, exactly as
CPython guarantees.  Composite Python tuple keys become iterated
lexicographic products. -/

/-- Python `sorted(l, key=K)`. -/
def sortByKey {α : Type} {κ : Type} [LinearOrder κ] (K : α → κ) (l : List α) : List α :=
  l.insertionSort (fun a b => K a ≤ K b)

/-! ## ChunkHit (`rag/retriever/base.py`) -/

/-- `rag/retriever/base.py` `ChunkHit`: the transient retrieval result
record. -/
structure ChunkHit where
  score : ℚ
  chunk_id : String
  doc_id : String
  start_page : Int
  end_page : Int
  text : String
deriving DecidableEq

instance : Inhabited ChunkHit := ⟨⟨0, "", "", 0, 0, ""⟩⟩

/-! ## Association lists for Python dicts

Python 3.7+ `dict`s preserve insertion order; updating an existing key
keeps its position, a new key is appended.  `alUpdate`/`alLookup` model
exactly that. -/

/-- Update key `k` in place with `f (current value)`, appending
`(k, f none)` when absent. -/
def alUpdate {κ β : Type} [DecidableEq κ] (k : κ) (f : Option β → β) :
    List (κ × β) → List (κ × β)
  | [] => [(k, f none)]
  | (k0, v) :: t => if k0 = k then (k0, f (some v)) :: t else (k0, v) :: alUpdate k f t

/-- Dictionary lookup `d.get(k)`. -/
def alLookup {κ β : Type} [DecidableEq κ] (k : κ) : List (κ × β) → Option β
  | [] => none
  | (k0, v) :: t => if k0 = k then some v else alLookup k t

/-! ## BM25 tokenizer (`rag/index_bm25.py` `tokenize`)

`TOKEN_RE = [a-z0-9]+(?:[-._][a-z0-9]+)+|[a-z0-9]+` finds maximal
alphanumeric runs optionally extended by separator groups; each compound
match additionally emits its parts split on `[-._]`.  The same scanner,
with a different alphabet, implements `TECH_TOKEN_RE` of
`rag/retrieve.py`. -/

/-- `[a-z0-9]`: token characters of the lowercased BM25 tokenizer. -/
def isTokChar (c : Char) : Bool := ('a' ≤ c ∧ c ≤ 'z') ∨ ('0' ≤ c ∧ c ≤ '9')

/-- `[A-Za-z0-9]`: token characters of `TECH_TOKEN_RE`. -/
def isTechChar (c : Char) : Bool :=
  ('a' ≤ c ∧ c ≤ 'z') ∨ ('A' ≤ c ∧ c ≤ 'Z') ∨ ('0' ≤ c ∧ c ≤ '9')

/-- `[-._]`: compound separators. -/
def isSepChar (c : Char) : Bool := c = '-' ∨ c = '.' ∨ c = '_'

/-- Scanner for `tc+(?:[-._]tc+)+|tc+`: accumulate the current token in
`buf`; a separator continues the token only when it is immediately
followed by a token character (one-character lookahead), exactly the
greedy regex semantics of `re.findall` for this pattern. -/
def tokGo (tc : Char → Bool) : List Char → List Char → List (List Char)
  | buf, [] => if buf.isEmpty then [] else [buf]
  | buf, c :: t =>
    if tc c then tokGo tc (buf ++ [c]) t
    else if (!buf.isEmpty && isSepChar c && (match t with | d :: _ => tc d | [] => false)) then
      tokGo tc (buf ++ [c]) t
    else if buf.isEmpty then tokGo tc buf t
    else buf :: tokGo tc [] t

/-- `re.split(r"[-._]", token)` (before dropping empty parts). -/
def splitSepsGo : List Char → List Char → List (List Char)
  | buf, [] => [buf]
  | buf, c :: t => if isSepChar c then buf :: splitSepsGo [] t else splitSepsGo (buf ++ [c]) t

/-- Automaton for the anchored match `COMPOUND_RE =
^[a-z0-9]+(?:[-._][a-z0-9]+)+$`: all characters are token or separator
characters, the first and last are token characters, no two separators
are adjacent, and at least one separator occurs. -/
def compoundAut : Bool → Bool → List Char → Bool
  | prevTok, seenSep, [] => prevTok && seenSep
  | prevTok, seenSep, c :: t =>
    if isTokChar c then compoundAut true seenSep t
    else if isSepChar c then prevTok && compoundAut false true t
    else false

/-- `COMPOUND_RE.match(token)` as a Bool. -/
def compoundMatch (tok : List Char) : Bool := compoundAut false false tok

/-- `rag/index_bm25.py` `tokenize`. -/
def tokenize (text : String) : List String :=
  let toks := tokGo isTokChar [] (pyLower text).data
  toks.flatMap (fun tok =>
    (⟨tok⟩ : String) ::
      (if compoundMatch tok then
        ((splitSepsGo [] tok).filter (fun p => ¬ p.isEmpty)).map (fun p => (⟨p⟩ : String))
      else []))

/-! ## BM25 retriever (`rag/retriever/bm25_retriever.py`) -/

/-- One row of the `docs` list in the BM25 artifact. -/
structure BMDocRec where
  chunk_id : String
  doc_id : String
  start_page : Int
  end_page : Int
  text : String
deriving DecidableEq

instance : Inhabited BMDocRec := ⟨⟨"", "", 0, 0, ""⟩⟩

/-- `BM25Retriever` with its loaded artifact.  The persisted containers
`doc_lens` and `docs` are modelled as total maps indexed by `doc_idx`;
`idf.get` and `postings.get(term, [])` keep their Python lookup shape. -/
structure BM25Retriever where
  k1 : ℚ
  b : ℚ
  avgdl : ℚ
  doc_lens : Nat → ℚ
  idf : String → Option ℚ
  postings : String → List (Nat × ℚ)
  docs : Nat → BMDocRec

/-- The class body of `BM25Retriever`
(`src/rag/retriever/bm25_retriever.py`) defines exactly these methods;
in particular it defines no `score_text`, although
`rerank_fused_hits` (`rag/retrieve.py` line 216) calls
`bm25.score_text(query, hit.text or "")`. -/
def bm25MethodNames : List String := ["__init__", "search"]

/-- Python attribute resolution of `bm25.score_text` on a real
`BM25Retriever` instance: the attribute does not exist
(`"score_text" ∉ bm25MethodNames`), so the access raises
`AttributeError`. -/
def bm25ScoreTextAttr (_r : BM25Retriever) :
    Except String (String → String → ℚ) :=
  Except.error "AttributeError: BM25Retriever object has no attribute score_text"

/-- The per-term, per-document BM25 contribution
(`BM25Retriever.search` lines 66-68): `idf * (tf*(k1+1)) / max(denom, 1e-9)`
with `denom = tf + k1*(1 - b + b*(dl / max(avgdl, 1e-9)))`. -/
def bm25TermScore (r : BM25Retriever) (idfv tf : ℚ) (doc_idx : Nat) : ℚ :=
  let dl := r.doc_lens doc_idx
  let denom := tf + r.k1 * (1 - r.b + r.b * (dl / max r.avgdl (1 / 1000000000)))
  idfv * ((tf * (r.k1 + 1)) / max denom (1 / 1000000000))

/-- The score accumulation of `BM25Retriever.search` (lines 55-69):
query-term frequencies in first-occurrence order, then for each term
with a known idf add its weighted contribution per posting into the
insertion-ordered `scores` dict. -/
def bm25Scores (r : BM25Retriever) (q_terms : List String) : List (Nat × ℚ) :=
  let qtf : List (String × Nat) :=
    q_terms.foldl (fun acc term => alUpdate term (fun o => o.getD 0 + 1) acc) []
  qtf.foldl (fun scores tq =>
    match r.idf tq.1 with
    | none => scores
    | some idfv =>
      (r.postings tq.1).foldl (fun sc dt =>
        alUpdate dt.1
          (fun o => o.getD 0 + bm25TermScore r idfv dt.2 dt.1 * (tq.2 : ℚ)) sc)
        scores) []

/-- `BM25Retriever.search`: rank accumulated scores by descending value
(`sorted(..., key=kv[1], reverse=True)`, a stable sort), truncate to
`k`, and materialize `ChunkHit`s from the `docs` records. -/
def BM25Retriever.search (r : BM25Retriever) (query : String) (k : Nat) : List ChunkHit :=
  let q_terms := tokenize query
  if q_terms = [] then []
  else
    let ranked := (sortByKey (fun p : Nat × ℚ => -p.2) (bm25Scores r q_terms)).take k
    ranked.map (fun p =>
      let rec0 := r.docs p.1
      { score := p.2
        chunk_id := rec0.chunk_id
        doc_id := rec0.doc_id
        start_page := rec0.start_page
        end_page := rec0.end_page
        text := rec0.text })

/-! ## Query variants and technical tokens (`rag/retrieve.py`) -/

/-- `TECH_TOKEN_RE.findall`: compound technical tokens of a query, in
encounter order (pure alphanumeric runs do not match the pattern, which
requires at least one separator group). -/
def techTokenFindall (s : String) : List String :=
  ((tokGo isTechChar [] s.data).filter (fun tok => tok.any isSepChar)).map
    (fun tok => (⟨tok⟩ : String))

/-- First-occurrence deduplication keyed by `key` (the `seen` sets of
`query_variants` and `_query_technical_tokens`). -/
def dedupBy {α κ : Type} [DecidableEq κ] (key : α → κ) (l : List α) : List α :=
  (l.foldl (fun acc x => if (acc.map key).contains (key x) then acc else acc ++ [x]) [])

/-- `rag/retrieve.py` `_query_technical_tokens`: lowercased compound
tokens of the query, deduplicated in order. -/
def queryTechnicalTokens (query : String) : List String :=
  dedupBy id ((techTokenFindall query).map pyLower)

/-- `ALGORITHM_NUM_RE.search`: find the first case-insensitive
`\balgorithm\s+(\d+)\b` and return its digit group.  The scanner walks
the text with a previous-is-word-character flag for the left boundary;
the right boundary holds exactly when the character after the maximal
digit run is not a word character. -/
def algNumScan : Bool → List Char → Option String
  | _, [] => none
  | prev, c :: t =>
    if ¬ prev ∧ (((c :: t).take 9).map pyLowerChar = "algorithm".data) then
      let rest := (c :: t).drop 9
      let sp := rest.takeWhile pyIsSpace
      let rest2 := rest.dropWhile pyIsSpace
      let ds := rest2.takeWhile pyIsDigit
      let rest3 := rest2.dropWhile pyIsDigit
      if (!sp.isEmpty && !ds.isEmpty &&
          (match rest3 with | [] => true | d :: _ => !pyIsWord d)) then
        some ⟨ds⟩
      else algNumScan (pyIsWord c) t
    else algNumScan (pyIsWord c) t

/-- `ALGORITHM_NUM_RE.search(original)`. -/
def algNumSearch (s : String) : Option String := algNumScan false s.data

/-- Python `" ".join(l)`. -/
def joinSpace : List String → String
  | [] => ""
  | [x] => x
  | x :: t => x ++ " " ++ joinSpace t

/-- `rag/retrieve.py` `query_variants`. -/
def query_variants (query : String) : List String :=
  let original := pyStrip query
  if original = "" then []
  else
    let technical_tokens := dedupBy id (techTokenFindall original)
    let lowered := pyLower original
    let variants :=
      [original] ++
      (if ¬ technical_tokens.isEmpty then [joinSpace technical_tokens] else []) ++
      (if strIn "key generation" lowered then ["ML-KEM.KeyGen key generation"] else []) ++
      (if strIn "ml-dsa" lowered ∧ strIn "signing" lowered then ["ML-DSA.Sign"] else []) ++
      (if strIn "ml-dsa" lowered ∧ strIn "verify" lowered then ["ML-DSA.Verify"] else []) ++
      (if strIn "slh-dsa" lowered ∧ strIn "keygen" lowered then ["SLH-DSA.KeyGen"] else []) ++
      (if strIn "ml-kem" lowered ∧ strIn "decapsulation" lowered then ["ML-KEM.Decaps"] else []) ++
      (match algNumSearch original with
        | some n => ["Algorithm " ++ n, "Algorithm " ++ n ++ " ML-KEM.KeyGen"]
        | none => []) ++ []
    dedupBy id ((variants.map pyStrip).filter (fun key => key ≠ ""))

/-! ## Reciprocal Rank Fusion (`rag/retrieve.py` `rrf_fuse`) -/

/-- `rag/retrieve.py` `_tie_break_key`. -/
def tieBreakKeyH (h : ChunkHit) : String ×ₗ (ℤ ×ₗ String) :=
  toLex (h.doc_id, toLex (h.start_page, h.chunk_id))

/-- One hit of one ranking at 1-based `rank`: add `1/(k0+rank)` into the
score dict and keep the representative with minimal tie-break key
(first-encountered wins ties). -/
def rrfStepPair (k0 : ℤ) (st : List (String × ℚ) × List (String × ChunkHit))
    (p : Nat × ChunkHit) : List (String × ℚ) × List (String × ChunkHit) :=
  (alUpdate p.2.chunk_id (fun o => o.getD 0 + 1 / ((k0 : ℚ) + (p.1 : ℚ))) st.1,
   alUpdate p.2.chunk_id
     (fun o => match o with
       | none => p.2
       | some prev => if tieBreakKeyH p.2 < tieBreakKeyH prev then p.2 else prev) st.2)

/-- The accumulation loops of `rrf_fuse` (lines 151-160) over all
rankings with `enumerate(hits, start=1)`. -/
def rrfAccum (rankings : List (List ChunkHit)) (k0 : ℤ) :
    List (String × ℚ) × List (String × ChunkHit) :=
  rankings.foldl (fun st ranking => (ranking.enumFrom 1).foldl (rrfStepPair k0) st) ([], [])

/-- The composite sort key of `rrf_fuse`:
`(-rrf_scores[cid], rep.doc_id, rep.start_page, rep.chunk_id)`. -/
def rrfSortKey (scores : List (String × ℚ)) (reps : List (String × ChunkHit))
    (cid : String) : ℚ ×ₗ (String ×ₗ (ℤ ×ₗ String)) :=
  let rep := (alLookup cid reps).getD default
  toLex (-(alLookup cid scores).getD 0, toLex (rep.doc_id, toLex (rep.start_page, rep.chunk_id)))

/-- The body of `rrf_fuse` after its argument checks. -/
def rrfFuseCore (rankings : List (List ChunkHit)) (top_k : Nat) (k0 : ℤ) : List ChunkHit :=
  let acc := rrfAccum rankings k0
  let ordered := sortByKey (rrfSortKey acc.1 acc.2) (acc.1.map Prod.fst)
  (ordered.take top_k).map (fun cid =>
    let h := (alLookup cid acc.2).getD default
    { score := (alLookup cid acc.1).getD 0
      chunk_id := h.chunk_id
      doc_id := h.doc_id
      start_page := h.start_page
      end_page := h.end_page
      text := h.text })

/-- `rag/retrieve.py` `rrf_fuse`: returns `[]` for `top_k <= 0` before
checking `k0`, raises `ValueError` for `k0 <= 0`. -/
def rrf_fuse (rankings : List (List ChunkHit)) (top_k k0 : Int) :
    Except String (List ChunkHit) :=
  if top_k ≤ 0 then Except.ok []
  else if k0 ≤ 0 then Except.error "k0 must be > 0"
  else Except.ok (rrfFuseCore rankings top_k.toNat k0)

/-! ## Lexical rerank (`rag/retrieve.py` `rerank_fused_hits`) -/

/-- The `has_exact_token` closure (lines 208-212). -/
def hasExactToken (technical_tokens : List String) (hit : ChunkHit) : Bool :=
  if technical_tokens.isEmpty then false
  else technical_tokens.any (fun token => strIn token (pyLower hit.text))

/-- The scoring loop (lines 214-217): each iteration evaluates
`bm25.score_text(query, hit.text or "")`, which resolves the
(nonexistent) `score_text` attribute on the retriever. -/
def rerankLoop (bm25 : BM25Retriever) (query : String) (tokens : List String) :
    List ChunkHit → Except String (List (Bool × ℚ × ChunkHit))
  | [] => Except.ok []
  | hit :: t =>
    match bm25ScoreTextAttr bm25 with
    | Except.error e => Except.error e
    | Except.ok f =>
      match rerankLoop bm25 query tokens t with
      | Except.error e => Except.error e
      | Except.ok rest => Except.ok ((hasExactToken tokens hit, f query hit.text, hit) :: rest)

/-- The rerank sort key
`(-int(has_exact), -bm25_score, doc_id, start_page, chunk_id)`. -/
def rerankKey (item : Bool × ℚ × ChunkHit) : ℤ ×ₗ (ℚ ×ₗ (String ×ₗ (ℤ ×ₗ String))) :=
  toLex (-(if item.1 then (1 : ℤ) else 0),
    toLex (-item.2.1, toLex (item.2.2.doc_id, toLex (item.2.2.start_page, item.2.2.chunk_id))))

/-- `rag/retrieve.py` `rerank_fused_hits`. -/
def rerank_fused_hits (query : String) (hits : List ChunkHit) (top_k : Nat)
    (bm25 : BM25Retriever) : Except String (List ChunkHit) :=
  let technical_tokens := queryTechnicalTokens query
  match rerankLoop bm25 query technical_tokens hits with
  | Except.error e => Except.error e
  | Except.ok scored =>
    Except.ok (((sortByKey rerankKey scored).take top_k).map (fun item => item.2.2))

/-! ## Retrieval entry points (`rag/retrieve.py`)

The FAISS backend and the base-mode backend are external index wrappers;
they enter as search functions `query → k → hits`.  The BM25 leg of
`hybrid_search` is the real `BM25Retriever`. -/

/-- `rag/retrieve.py` `hybrid_search`. -/
def hybrid_search (faissSearch : String → Nat → List ChunkHit) (bm25 : BM25Retriever)
    (query : String) (top_k candidate_multiplier k0 : Int)
    (use_query_fusion enable_rerank : Bool) (rerank_pool : Int) :
    Except String (List ChunkHit) :=
  if top_k ≤ 0 then Except.error "top_k must be > 0"
  else if candidate_multiplier ≤ 0 then Except.error "candidate_multiplier must be > 0"
  else if rerank_pool ≤ 0 then Except.error "rerank_pool must be > 0"
  else
    let per_source_k := max (top_k * candidate_multiplier) top_k
    let fused_pool := max top_k rerank_pool
    let queries := if use_query_fusion then query_variants query else [query]
    let rankings := queries.flatMap (fun q =>
      [faissSearch q per_source_k.toNat, BM25Retriever.search bm25 q per_source_k.toNat])
    match rrf_fuse rankings fused_pool k0 with
    | Except.error e => Except.error e
    | Except.ok fused =>
      if enable_rerank then rerank_fused_hits query fused top_k.toNat bm25
      else Except.ok (fused.take top_k.toNat)

/-- `rag/retrieve.py` `base_search` (single backend obtained from
`get_retriever(backend)`; the rerank stage constructs a real
`BM25Retriever`). -/
def base_search (backendSearch : String → Nat → List ChunkHit) (bm25 : BM25Retriever)
    (query : String) (top_k candidate_multiplier k0 : Int)
    (use_query_fusion enable_rerank : Bool) (rerank_pool : Int) :
    Except String (List ChunkHit) :=
  if top_k ≤ 0 then Except.error "top_k must be > 0"
  else if candidate_multiplier ≤ 0 then Except.error "candidate_multiplier must be > 0"
  else if rerank_pool ≤ 0 then Except.error "rerank_pool must be > 0"
  else
    let per_query_k := max (top_k * candidate_multiplier) top_k
    let fused_pool := max top_k rerank_pool
    let queries := if use_query_fusion then query_variants query else [query]
    let rankings := queries.map (fun q => backendSearch q per_query_k.toNat)
    match rrf_fuse rankings fused_pool k0 with
    | Except.error e => Except.error e
    | Except.ok fused =>
      if enable_rerank then rerank_fused_hits query fused top_k.toNat bm25
      else Except.ok (fused.take top_k.toNat)

/-- `rag/retrieve.py` `retrieve`: dispatch on `mode.lower().strip()`. -/
def retrieve (faissSearch backendSearch : String → Nat → List ChunkHit)
    (bm25 : BM25Retriever) (query : String) (k : Int) (mode : String)
    (use_query_fusion : Bool) (candidate_multiplier k0 : Int)
    (enable_rerank : Bool) (rerank_pool : Int) : Except String (List ChunkHit) :=
  let selected_mode := pyStrip (pyLower mode)
  if selected_mode = "hybrid" then
    hybrid_search faissSearch bm25 query k candidate_multiplier k0
      use_query_fusion enable_rerank rerank_pool
  else if selected_mode = "base" then
    base_search backendSearch bm25 query k candidate_multiplier k0
      use_query_fusion enable_rerank rerank_pool
  else Except.error ("Unknown retrieval mode: " ++ mode)


/-- A two-document BM25 retriever state as `index_bm25.build_bm25_artifact`
produces it from a chunk store whose row 0 has text `"b"` and row 1 has
text `"a"`: postings lists in ascending `doc_idx`, both terms with
document frequency 1 and hence the same idf value (taken as 1), unit
document lengths, `k1 = 1.5`, `b = 0.75`. -/
def bm25TieExample : BM25Retriever where
  k1 := 3 / 2
  b := 3 / 4
  avgdl := 1
  doc_lens := fun _ => 1
  idf := fun t => if t = "a" ∨ t = "b" then some 1 else none
  postings := fun t => if t = "a" then [(1, 1)] else if t = "b" then [(0, 1)] else []
  docs := fun i => if i = 0 then ⟨"d0", "D", 1, 1, "b"⟩ else ⟨"d1", "D", 1, 1, "a"⟩


/-- All `(rank, hit)` occurrences fed to `rrf_fuse`, ranking by ranking,
with 1-based ranks (`enumerate(hits, start=1)`). -/
def rrfPairs (rankings : List (List ChunkHit)) : List (Nat × ChunkHit) :=
  rankings.flatMap (fun ranking => ranking.enumFrom 1)

/-- The reciprocal-rank mass a pair list contributes to one chunk id:
the sum of `1/(k0 + rank)` over its occurrences. -/
def rrfContrib (k0 : ℤ) (l : List (Nat × ChunkHit)) (cid : String) : ℚ :=
  ((l.filter (fun p => p.2.chunk_id = cid)).map
    (fun p => 1 / ((k0 : ℚ) + (p.1 : ℚ)))).sum

/-- The accumulated RRF score the claim asserts: the sum of
`1/(k0 + rank)` over all 1-based occurrences of the chunk id across all
rankings. -/
def rrfSpecScore (rankings : List (List ChunkHit)) (k0 : ℤ) (cid : String) : ℚ :=
  rrfContrib k0 (rrfPairs rankings) cid

/-- Hits with the same `chunk_id` across all rankings agree on the
metadata fields that `rrf_fuse` copies into its output (scores may
differ, e.g. between the vector and the BM25 leg). -/
def chunkConsistent (rankings : List (List ChunkHit)) : Prop :=
  ∀ p1 ∈ rrfPairs rankings, ∀ p2 ∈ rrfPairs rankings,
    (p1 : Nat × ChunkHit).2.chunk_id = (p2 : Nat × ChunkHit).2.chunk_id →
    p1.2.doc_id = p2.2.doc_id ∧ p1.2.start_page = p2.2.start_page ∧
      p1.2.end_page = p2.2.end_page ∧ p1.2.text = p2.2.text


/-! ## Answer types (`rag/types.py`) -/

/-- `rag/types.py` `REFUSAL_TEXT`. -/
def REFUSAL_TEXT : String := "not found in provided docs"

/-- `rag/types.py` `Citation`. -/
structure Citation where
  key : String
  doc_id : String
  start_page : Int
  end_page : Int
  chunk_id : String
deriving DecidableEq

/-- `rag/types.py` `AnswerResult`. -/
structure AnswerResult where
  answer : String
  citations : List Citation
  notes : Option String := none
deriving DecidableEq

/-- `AnswerResult.is_refusal`. -/
def AnswerResult.is_refusal (r : AnswerResult) : Bool :=
  pyLower (pyStrip r.answer) = REFUSAL_TEXT

/-! ## Inline citation markers

`_CITE_BRACKET_RE = \[([^\]]+)\]` and `_CITE_TOKEN_RE = \bc\d+\b`
(case-insensitive), defined identically in `rag/types.py` and
`rag/rag_answer.py`.  `bracketGo` scans for non-overlapping bracket
groups with non-empty contents; `cTokensGo` finds `c<digits>` tokens
bounded by word boundaries inside a group and lowercases them.  Python
accumulates the keys in a `set`; we keep them as a first-occurrence
ordered deduplicated list (set iteration order is unspecified in
Python; every property proved below is order-independent). -/

/-- `re.findall(r"\[([^\]]+)\]", ·)`: bracket group contents. -/
def bracketGo : Option (List Char) → List Char → List (List Char)
  | none, [] => []
  | some _, [] => []
  | none, c :: t => if c = '[' then bracketGo (some []) t else bracketGo none t
  | some buf, c :: t =>
    if c = ']' then
      if buf.isEmpty then bracketGo none t else buf :: bracketGo none t
    else bracketGo (some (buf ++ [c])) t

/-- `re.findall(r"\bc\d+\b", ·, re.IGNORECASE)` with lowercasing: scan
with a previous-is-word-character flag; a match needs a non-word (or
absent) character before `c`/`C`, at least one digit after it, and a
non-word (or absent) character after the maximal digit run. -/
def cTokensGo : Bool → List Char → List (List Char)
  | _, [] => []
  | prev, c :: t =>
    if ¬ prev ∧ (c = 'c' ∨ c = 'C') then
      let ds := t.takeWhile pyIsDigit
      let rest := t.dropWhile pyIsDigit
      if (!ds.isEmpty && (match rest with | [] => true | d :: _ => !pyIsWord d)) then
        ('c' :: ds) :: cTokensGo true rest
      else cTokensGo (pyIsWord c) t
    else cTokensGo (pyIsWord c) t
termination_by _ l => l.length
decreasing_by
  all_goals simp_wf
  all_goals try omega
  all_goals
    have := List.Sublist.length_le (@List.dropWhile_sublist _ t pyIsDigit)
    omega

/-- `rag/rag_answer.py` `_extract_inline_citation_keys` (and
`rag/types.py` `extract_citation_keys`). -/
def extractInlineCitationKeys (text : String) : List String :=
  dedupBy id ((bracketGo none text.data).flatMap
    (fun content => (cTokensGo false content).map (fun tk => (⟨tk⟩ : String))))

/-- `re.split(r"(?<=[\.\?\!])\s+", ·)`: cut at each maximal whitespace
run that directly follows `.`, `?` or `!`. -/
def sentSplitGo (buf : List Char) : List Char → List (List Char)
  | [] => [buf]
  | c :: t =>
    if ((match buf.getLast? with
          | some lc => lc = '.' || lc = '?' || lc = '!'
          | none => false) && pyIsSpace c) then
      buf :: sentSplitGo [] (t.dropWhile pyIsSpace)
    else sentSplitGo (buf ++ [c]) t
termination_by l => l.length
decreasing_by
  all_goals simp_wf
  all_goals try omega
  all_goals
    have := List.Sublist.length_le (@List.dropWhile_sublist _ t pyIsSpace)
    omega

/-- `rag/rag_answer.py` `_sentences`. -/
def pySentences (text : String) : List String :=
  (sentSplitGo [] (pyStrip text).data).filterMap
    (fun p => if pyStrip ⟨p⟩ = "" then none else some (⟨p⟩ : String))

/-- `int(x[1:])` for keys of the form `c<digits>`. -/
def keySuffix (k : String) : Nat :=
  (k.data.drop 1).foldl (fun n c => n * 10 + (c.toNat - 48)) 0

/-! ## Answer validation (`rag/types.py` `validate_answer`) -/

/-- The page-sanity loop of `validate_answer`. -/
def checkCitationPages : List Citation → Except String Unit
  | [] => Except.ok ()
  | c :: t =>
    if c.start_page ≤ 0 ∨ c.end_page ≤ 0 then
      Except.error "Invalid page numbers in citation"
    else if c.start_page > c.end_page then
      Except.error "start_page > end_page in citation"
    else checkCitationPages t

/-- `rag/types.py` `validate_answer` (raises `ValueError` = `error`). -/
def validate_answer (result : AnswerResult)
    (require_citations require_inline_markers : Bool) : Except String Unit :=
  match checkCitationPages result.citations with
  | Except.error e => Except.error e
  | Except.ok _ =>
    if result.is_refusal then
      if result.citations.length ≠ 0 then Except.error "Refusal must return empty citations."
      else Except.ok ()
    else if require_citations ∧ result.citations.length = 0 then
      Except.error "Non-refusal answer must include citations."
    else if require_inline_markers then
      let used := extractInlineCitationKeys result.answer
      let known := result.citations.map (fun c => c.key)
      if used.isEmpty then
        Except.error "Answer must include inline citation markers like [c1]."
      else if ¬ (used.filter (fun k => ¬ known.contains k)).isEmpty then
        Except.error "Answer uses unknown citation keys"
      else Except.ok ()
    else Except.ok ()

/-! ## Evidence selection (`rag/rag_answer.py`) -/

/-- The `SETTINGS` fields consumed by `rag/rag_answer.py`, passed
explicitly (the source reads the process-wide `SETTINGS`). -/
structure AskSettings where
  askMaxContextChunks : Nat
  askMaxContextChars : Nat
  askMinEvidenceHits : Nat
  askRequireCitations : Bool
  askIncludeNeighborChunks : Bool
  askNeighborWindow : Int

/-- One row of `chunk_store.jsonl` as used for neighbor lookup. -/
structure StoreRec where
  chunk_id : String
  doc_id : String
  start_page : Int
  end_page : Int
  text : String

/-- The cached maps of `_load_chunk_store_maps`:
`chunk_id -> vector_id` and `vector_id -> record`. -/
structure ChunkStoreMaps where
  chunk_to_vector : String → Option Int
  vector_to_rec : Int → Option StoreRec

/-- `rag/rag_answer.py` `_stable_sort_key`. -/
def stableSortKeyH (h : ChunkHit) : ℚ ×ₗ (String ×ₗ (ℤ ×ₗ (ℤ ×ₗ String))) :=
  toLex (-h.score, toLex (h.doc_id, toLex (h.start_page, toLex (h.end_page, h.chunk_id))))

/-- `rag/rag_answer.py` `_neighbor_hits`: same-document chunks within
`±window` in `vector_id` space, scores nudged down by `delta * 1e-6`. -/
def neighborHits (store : ChunkStoreMaps) (hit : ChunkHit) (window : Int) : List ChunkHit :=
  if window ≤ 0 then []
  else
    match store.chunk_to_vector hit.chunk_id with
    | none => []
    | some vector_id =>
      (List.range window.toNat).flatMap (fun d =>
        let delta : Int := (d : Int) + 1
        ([vector_id - delta, vector_id + delta]).filterMap (fun cvid =>
          match store.vector_to_rec cvid with
          | none => none
          | some rec0 =>
            if rec0.doc_id ≠ hit.doc_id then none
            else some
              { score := hit.score - (delta : ℚ) * (1 / 1000000)
                chunk_id := rec0.chunk_id
                doc_id := rec0.doc_id
                start_page := rec0.start_page
                end_page := rec0.end_page
                text := rec0.text }))

/-- The budget loop of `select_evidence` (lines 151-163), with the two
`break`s of the source. -/
def budgetLoop (s : AskSettings) : List ChunkHit → List ChunkHit → Nat → List ChunkHit
  | [], budgeted, _ => budgeted
  | h :: rest, budgeted, total =>
    if s.askMaxContextChunks ≤ budgeted.length then budgeted
    else if pyStrip h.text = "" then budgetLoop s rest budgeted total
    else if s.askMaxContextChars < total + h.text.length ∧ budgeted ≠ [] then budgeted
    else budgetLoop s rest (budgeted ++ [h]) (total + h.text.length)

/-- The neighbor-expansion loop of `select_evidence` (lines 137-149):
append unseen primary hits and, when enabled, their unseen neighbors. -/
def expandLoop (s : AskSettings) (store : ChunkStoreMaps) (primary : List ChunkHit) :
    List ChunkHit :=
  (primary.foldl (fun (acc : List ChunkHit × List String) h =>
    let acc1 := if acc.2.contains h.chunk_id then acc else (acc.1 ++ [h], acc.2 ++ [h.chunk_id])
    if s.askIncludeNeighborChunks then
      (neighborHits store h s.askNeighborWindow).foldl
        (fun (a : List ChunkHit × List String) n =>
          if a.2.contains n.chunk_id then a else (a.1 ++ [n], a.2 ++ [n.chunk_id])) acc1
    else acc1) ([], [])).1

/-- `rag/rag_answer.py` `select_evidence`. -/
def select_evidence (s : AskSettings) (store : ChunkStoreMaps) (hits : List ChunkHit) :
    List ChunkHit :=
  let best := hits.foldl (fun b h =>
    alUpdate h.chunk_id
      (fun o => match o with
        | none => h
        | some prev => if prev.score < h.score then h else prev) b) []
  let ordered := sortByKey stableSortKeyH (best.map Prod.snd)
  let primary := ordered.take s.askMaxContextChunks
  let expanded := expandLoop s store primary
  budgetLoop s expanded [] 0

/-! ## Citation enforcement (`rag/rag_answer.py`) -/

/-- The citation-map half of `build_context_and_citations`: assign keys
`c1..cN` in evidence order.  (The context string half only feeds the
prompt, which goes to the abstract generator; it is not modelled.) -/
def buildContextCitations (evidence : List ChunkHit) : List (String × Citation) :=
  (evidence.enumFrom 1).map (fun p =>
    ("c" ++ toString p.1,
      { key := "c" ++ toString p.1
        doc_id := p.2.doc_id
        start_page := p.2.start_page
        end_page := p.2.end_page
        chunk_id := p.2.chunk_id }))

/-- The canonical refusal result all rejection branches of
`enforce_inline_citations` construct and validate. -/
def refuseValidated (s : AskSettings) : Except String AnswerResult :=
  match validate_answer ⟨REFUSAL_TEXT, [], none⟩ s.askRequireCitations true with
  | Except.error e => Except.error e
  | Except.ok _ => Except.ok ⟨REFUSAL_TEXT, [], none⟩

/-- `rag/rag_answer.py` `enforce_inline_citations`. -/
def enforce_inline_citations (s : AskSettings) (answer_text : String)
    (key_to_cit : List (String × Citation)) : Except String AnswerResult :=
  let ans := pyStrip answer_text
  if pyLower ans = "not found" ∨ pyLower ans = "not found in documents" ∨
      pyLower ans = pyLower REFUSAL_TEXT then
    refuseValidated s
  else
    let used := extractInlineCitationKeys ans
    if used.isEmpty then refuseValidated s
    else if ¬ (used.filter (fun k => !(alLookup k key_to_cit).isSome)).isEmpty then
      refuseValidated s
    else if (pySentences ans).any (fun se => (extractInlineCitationKeys se).isEmpty) then
      refuseValidated s
    else
      let citations := (sortByKey keySuffix used).filterMap (fun k => alLookup k key_to_cit)
      let result : AnswerResult := ⟨ans, citations, none⟩
      match validate_answer result s.askRequireCitations true with
      | Except.error e => Except.error e
      | Except.ok _ => Except.ok result

/-- The algorithm-steps fallback stage of `build_cited_answer` (lines
499-505).  The text-production function `_algorithm_fallback_answer` is
an explicit parameter: its output is re-validated by
`enforce_inline_citations` against the same key map, which is what the
claims constrain; when it validates to a non-refusal it is returned,
otherwise the original result stands. -/
def bcaAlgStage (s : AskSettings) (question : String) (evidence : List ChunkHit)
    (key_to_cit : List (String × Citation)) (result : AnswerResult)
    (algFb : String → List ChunkHit → List (String × Citation) → Option String) :
    Except String AnswerResult :=
  if result.answer = REFUSAL_TEXT then
    match algFb question evidence key_to_cit with
    | some fb =>
      if fb = "" then Except.ok result else
      match enforce_inline_citations s fb key_to_cit with
      | Except.error e => Except.error e
      | Except.ok result2 =>
        if result2.answer ≠ REFUSAL_TEXT then Except.ok result2 else Except.ok result
    | none => Except.ok result
  else Except.ok result

/-- The comparison fallback stage of `build_cited_answer` (lines
507-515).  `_comparison_fallback_answer` returns a fallback text
together with the evidence pair it chose; the source builds its key map
with `build_context_and_citations` over that evidence, which we mirror
here, and re-validates. -/
def bcaCmpStage (s : AskSettings) (question : String) (hits : List ChunkHit)
    (result : AnswerResult)
    (cmpFb : String → List ChunkHit → Option (String × List ChunkHit)) :
    Except String AnswerResult :=
  if result.answer = REFUSAL_TEXT then
    match cmpFb question hits with
    | some (fbText, fbEvidence) =>
      match enforce_inline_citations s fbText (buildContextCitations fbEvidence) with
      | Except.error e => Except.error e
      | Except.ok result3 =>
        if result3.answer ≠ REFUSAL_TEXT then Except.ok result3 else Except.ok result
    | none => Except.ok result
  else Except.ok result

/-- `rag/rag_answer.py` `build_cited_answer`.  The LLM generator is the
parameter `gen`; the source feeds it a prompt that is a pure function of
the question and the selected evidence, so `gen` receives those
directly — every theorem below quantifies over `gen`, so nothing is
lost.  The two deterministic fallback text producers are likewise
parameters (see `bcaAlgStage` / `bcaCmpStage`). -/
def build_cited_answer (s : AskSettings) (store : ChunkStoreMaps) (question : String)
    (hits : List ChunkHit) (gen : String → List ChunkHit → String)
    (algFb : String → List ChunkHit → List (String × Citation) → Option String)
    (cmpFb : String → List ChunkHit → Option (String × List ChunkHit)) :
    Except String AnswerResult :=
  let evidence := select_evidence s store hits
  if evidence.length < s.askMinEvidenceHits then
    match validate_answer ⟨REFUSAL_TEXT, [], none⟩ s.askRequireCitations true with
    | Except.error e => Except.error e
    | Except.ok _ => Except.ok ⟨REFUSAL_TEXT, [], none⟩
  else
    let key_to_cit := buildContextCitations evidence
    let raw_answer := gen question evidence
    match enforce_inline_citations s raw_answer key_to_cit with
    | Except.error e => Except.error e
    | Except.ok result =>
      match bcaAlgStage s question evidence key_to_cit result algFb with
      | Except.error e => Except.error e
      | Except.ok resultB => bcaCmpStage s question hits resultB cmpFb


/-! ## Spec-side predicate for claim C1 -/

/-- Following the spec wording of claim C1: the citation contract on a
final `AnswerResult` — a refusal carries no citations, and a non-refusal
carries a non-empty list whose keys all occur as inline markers, whose
sentences each contain a marker, whose markers all resolve to cited
keys, and whose citations are in ascending numeric-key order. -/
def citedInvariant (r : AnswerResult) : Prop :=
  (r.answer = REFUSAL_TEXT → r.citations = []) ∧
  (r.answer ≠ REFUSAL_TEXT →
    r.citations ≠ [] ∧
    (∀ c ∈ r.citations, c.key ∈ extractInlineCitationKeys r.answer) ∧
    (∀ se ∈ pySentences r.answer, extractInlineCitationKeys se ≠ []) ∧
    (∀ k ∈ extractInlineCitationKeys r.answer, ∃ c ∈ r.citations, c.key = k) ∧
    List.Pairwise (fun a b => keySuffix a.key ≤ keySuffix b.key) r.citations)

/-- Concrete settings for the C1 witness: `min_evidence_hits = 1`. -/
def c1s : AskSettings := ⟨4, 100, 1, true, false, 0⟩

/-- Empty chunk store for witnesses. -/
def c1store : ChunkStoreMaps := ⟨fun _ => none, fun _ => none⟩

/-- Concrete settings for the C3 witness: `min_evidence_hits = 2`. -/
def c3s : AskSettings := ⟨4, 4000, 2, true, false, 0⟩

/-- A single evidence hit for the C3 witness. -/
def c3hit : ChunkHit := ⟨0, "ck1", "DOC", 1, 1, "some text"⟩


/-! ## LangGraph agent (`rag/lc/graph.py`, `state.py`, `state_utils.py`)

`EvidenceItem` of `rag/lc/state.py` has exactly the fields of `ChunkHit`
(`score, chunk_id, doc_id, start_page, end_page, text`); the
dict/dataclass marshalling of `_to_evidence_items` is the identity in
this embedding, so `ChunkHit` is used directly.  Trace events (`trace`),
`errors` and `last_retrieval_stats` never influence control flow and
are omitted from the state.  External collaborators are parameters: the
four retrieval tools of `rag/lc/tools.py`, the LLM answer adapter
`_call_rag_answer`, and — because the theorems below hold for every
value of them — the pure in-module helpers `_extract_compare_topics`
(three compiled regexes), `_extract_anchor_terms` and
`_build_refined_query`. -/

/-- `rag/lc/state.py` `Citation` (the agent-side one: optional key). -/
structure LCCitation where
  doc_id : String
  start_page : Int
  end_page : Int
  chunk_id : String
  key : Option String := none
deriving DecidableEq

/-- `rag/lc/state.py` `Plan`.  The `args` dict holds at most the keys
`term`, `topic_a`, `topic_b` for heuristic plans; they are modelled as
optional fields (`summarize` arguments never arise from
`_heuristic_route`). -/
structure LCPlan where
  action : String
  reason : String
  query : Option String := none
  argTerm : Option String := none
  argTopicA : Option String := none
  argTopicB : Option String := none
  mode_hint : Option String := none
deriving DecidableEq

/-- `rag/lc/state.py` `AgentState`; absent dict keys are represented by
their `.get` defaults. -/
structure LCState where
  question : String
  plan : Option LCPlan
  evidence : List ChunkHit
  draft_answer : String
  final_answer : String
  citations : List LCCitation
  tool_calls : Nat
  steps : Nat
  retrieval_round : Nat
  evidence_sufficient : Bool
  stop_reason : String
  refusal_reason : String
deriving DecidableEq

/-- The four agent budget settings read from `SETTINGS` at module load
(`MAX_STEPS`, `MAX_TOOL_CALLS`, `MAX_RETRIEVAL_ROUNDS`,
`MIN_EVIDENCE_HITS`). -/
structure AgentBudgets where
  maxSteps : Nat
  maxToolCalls : Nat
  maxRounds : Nat
  minEvidenceHits : Nat

/-- The retrieval tools of `rag/lc/tools.py` (external collaborators).
`summarizeT` receives the plan because `_heuristic_route` never emits a
`summarize` plan and its argument marshalling is not modelled. -/
structure LCTools where
  retrieveT : String → Nat → List ChunkHit
  resolveDefinitionT : String → Nat → List ChunkHit
  compareT : String → String → Nat → List ChunkHit
  summarizeT : Option LCPlan → List ChunkHit

/-- `rag/lc/state_utils.py` `init_state` (unset keys at their
defaults). -/
def initState (question : String) : LCState :=
  ⟨question, none, [], "", "", [], 0, 0, 0, false, "", ""⟩

/-- `_bump_step`. -/
def bumpStep (st : LCState) : LCState := { st with steps := st.steps + 1 }

/-- `_step_limit_hit`. -/
def stepLimitHit (b : AgentBudgets) (st : LCState) : Bool := b.maxSteps ≤ st.steps

/-- `_tool_limit_hit`. -/
def toolLimitHit (b : AgentBudgets) (st : LCState) : Bool := b.maxToolCalls ≤ st.tool_calls

/-- `_round_limit_hit`. -/
def roundLimitHit (b : AgentBudgets) (st : LCState) : Bool := b.maxRounds ≤ st.retrieval_round

/-- `_budget_limit_reason`. -/
def budgetLimitReason (b : AgentBudgets) (st : LCState) : Option String :=
  if stepLimitHit b st then some "step_budget_exhausted"
  else if toolLimitHit b st then some "tool_budget_exhausted"
  else if roundLimitHit b st then some "retrieval_round_budget_exhausted"
  else none

/-- The last element of `q.split(" ", 2)`: drop through at most two
spaces. -/
def dropThroughSpace : List Char → Option (List Char)
  | [] => none
  | x :: t => if x = ' ' then some t else dropThroughSpace t

/-- `q.split(" ", 2)[-1].strip(" ?")` from `_heuristic_route`. -/
def defTermOf (q : String) : String :=
  let last :=
    match dropThroughSpace q.data with
    | none => q.data
    | some r1 =>
      match dropThroughSpace r1 with
      | none => r1
      | some r2 => r2
  pyStripChars " ?" ⟨last⟩

/-- `rag/lc/graph.py` `_heuristic_route`, with `_extract_compare_topics`
abstracted as `cT` (it returns either two non-empty topics or `None`). -/
def heuristicRoute (cT : String → Option (String × String)) (question : String) : LCPlan :=
  let q := pyStrip question
  let ql := pyLower q
  if strIn "compare" ql || strIn "difference between" ql ||
      strIn "differences between" ql || strIn "vs" ql || strIn "versus" ql then
    match cT q with
    | some (topic_a, topic_b) =>
      if topic_a ≠ "" ∧ topic_b ≠ "" then
        { action := "compare", reason := "Comparison intent detected with parsed topics.",
          argTopicA := some topic_a, argTopicB := some topic_b, mode_hint := some "general" }
      else
        { action := "retrieve",
          reason := "Comparison intent detected but topics were ambiguous; using broad retrieval.",
          query := some q, mode_hint := some "general" }
    | none =>
      { action := "retrieve",
        reason := "Comparison intent detected but topics were ambiguous; using broad retrieval.",
        query := some q, mode_hint := some "general" }
  else if strIn "algorithm" ql || strIn "shake" ql then
    { action := "retrieve", reason := "Algorithm-like query detected; retrieve evidence.",
      query := some q, mode_hint := some "algorithm" }
  else if pyStartsWith ql "what is" || pyStartsWith ql "what's" ||
      pyStartsWith ql "define" || pyStartsWith ql "explain" then
    { action := "resolve_definition", reason := "Definition intent detected.",
      argTerm := some (defTermOf q), mode_hint := some "definition" }
  else
    { action := "retrieve", reason := "Default to retrieval.", query := some q,
      mode_hint := some "general" }

/-- `_merge_evidence`: first-occurrence dedup by `chunk_id` over
`existing ++ incoming`. -/
def mergeEvidence (existing incoming : List ChunkHit) : List ChunkHit :=
  dedupBy (fun h => h.chunk_id) (existing ++ incoming)

/-- `_evidence_contains_any_anchor`. -/
def evidenceContainsAnyAnchor (evidence : List ChunkHit) (anchors : List String) : Bool :=
  if anchors.isEmpty then true
  else anchors.any (fun a => evidence.any (fun e => strIn (pyLower a) (pyLower e.text)))

/-- `_doc_diversity`: number of distinct `doc_id`s. -/
def docDiversity (evidence : List ChunkHit) : Nat :=
  (dedupBy id (evidence.map (fun e => e.doc_id))).length

/-- The fallback half of `_plan_mode_hint`. -/
def planModeHintFallback (fallback_query : String) : Option String :=
  let ql := pyLower fallback_query
  if strIn "algorithm" ql || strIn "shake" ql then some "algorithm"
  else if pyStartsWith ql "define" || pyStartsWith ql "what is" ||
      pyStartsWith ql "what's" || pyStartsWith ql "explain" then some "definition"
  else some "general"

/-- `_plan_mode_hint` (a falsy `mode_hint` — absent or empty — falls
back to query heuristics). -/
def planModeHint (plan : Option LCPlan) (fallback_query : String) : Option String :=
  match plan with
  | some p =>
    match p.mode_hint with
    | some mh => if mh ≠ "" then some mh else planModeHintFallback fallback_query
    | none => planModeHintFallback fallback_query
  | none => planModeHintFallback fallback_query

/-- `_refusal_message`. -/
def refusalMessage (refusal_reason : String) : String :=
  let rr := pyLower refusal_reason
  if strIn "anchor_missing" rr then
    "I could not find citable evidence for the specific algorithm/table/section anchor in the indexed NIST documents."
  else if strIn "compare_doc_diversity_missing" rr then
    "I could not find enough citable evidence across both topics to produce a reliable comparison from the indexed NIST documents."
  else if rr = "missing_citations" then
    "I could not produce reliable citations for the drafted answer, so I cannot return it."
  else if rr = "empty_draft_answer" then
    "I could not produce a citable grounded answer from the indexed NIST documents."
  else
    "I do not have enough citable evidence in the indexed NIST documents to answer that reliably."

/-- `_derive_refusal_reason`. -/
def deriveRefusalReason (st : LCState) (sufficient : Bool) (draft : String)
    (evidence : List ChunkHit) (citations : List LCCitation) : String :=
  if ¬ sufficient then (if st.stop_reason = "" then "insufficient_evidence" else st.stop_reason)
  else if draft = "" then "empty_draft_answer"
  else if evidence.isEmpty then "empty_evidence"
  else if citations.isEmpty then "missing_citations"
  else ""

/-- `node_route`. -/
def node_route (b : AgentBudgets) (cT : String → Option (String × String))
    (st0 : LCState) : LCState :=
  let st := bumpStep st0
  if stepLimitHit b st then
    { st with
        stop_reason := "step_budget_exhausted",
        plan := some { action := "refuse", reason := "Step budget exhausted before routing." } }
  else
    { st with plan := some (heuristicRoute cT st.question) }

/-- `node_retrieve`. -/
def node_retrieve (b : AgentBudgets) (tools : LCTools) (st0 : LCState) : LCState :=
  let st := bumpStep st0
  if stepLimitHit b st then { st with stop_reason := "step_budget_exhausted" }
  else if toolLimitHit b st then { st with stop_reason := "tool_budget_exhausted" }
  else if roundLimitHit b st then { st with stop_reason := "retrieval_round_budget_exhausted" }
  else
    let action := match st.plan with | some p => p.action | none => "retrieve"
    let st := { st with tool_calls := st.tool_calls + 1,
                        retrieval_round := st.retrieval_round + 1 }
    let tool_out : Option (List ChunkHit) :=
      if action = "retrieve" then
        let q0 := match st.plan with | some p => p.query.getD "" | none => ""
        some (tools.retrieveT (if q0 = "" then st.question else q0) 8)
      else if action = "resolve_definition" then
        let term := match st.plan with | some p => p.argTerm.getD st.question | none => st.question
        some (tools.resolveDefinitionT term 8)
      else if action = "compare" then
        let ta := match st.plan with | some p => p.argTopicA.getD st.question | none => st.question
        let tb := match st.plan with | some p => p.argTopicB.getD st.question | none => st.question
        some (tools.compareT ta tb 6)
      else if action = "summarize" then some (tools.summarizeT st.plan)
      else none
    match tool_out with
    | none => { st with stop_reason := "unsupported_action:" ++ action }
    | some incoming => { st with evidence := mergeEvidence st.evidence incoming }

/-- `node_assess_evidence`, with `_extract_anchor_terms` abstracted as
`anchorsOf` and `_extract_compare_topics` abstracted as `cT`. -/
def node_assess_evidence (b : AgentBudgets) (anchorsOf : String → List String)
    (cT : String → Option (String × String)) (st0 : LCState) : LCState :=
  let st := bumpStep st0
  let evidence := st.evidence
  let anchors := anchorsOf st.question
  let anchor_match := evidenceContainsAnyAnchor evidence anchors
  let compare_required := (cT st.question).isSome
  let reasons : List String :=
    (if evidence.length < b.minEvidenceHits then ["insufficient_hits"] else []) ++
    (if ¬ anchors.isEmpty ∧ ¬ anchor_match then ["anchor_missing"] else []) ++
    (if compare_required ∧ docDiversity evidence < 2 then ["compare_doc_diversity_missing"] else [])
  let sufficient := reasons.isEmpty
  let st := { st with evidence_sufficient := sufficient }
  if ¬ sufficient then
    match budgetLimitReason b st with
    | some budget_reason => { st with stop_reason := budget_reason }
    | none => { st with stop_reason := reasons.headD "" }
  else { st with stop_reason := "sufficient_evidence" }

/-- `node_refine_query`, with `_build_refined_query` abstracted as
`refineB` (returning the refined query and the strategy label). -/
def node_refine_query (b : AgentBudgets) (refineB : LCState → String × String)
    (st0 : LCState) : LCState :=
  let st := bumpStep st0
  if stepLimitHit b st then { st with stop_reason := "step_budget_exhausted" }
  else
    let refined := refineB st
    let newPlan : LCPlan :=
      { action := "retrieve", reason := "Refined retrieval query via " ++ refined.2 ++ ".",
        query := some refined.1, mode_hint := planModeHint st.plan refined.1 }
    { st with plan := some newPlan }

/-- `node_answer`, with the `_call_rag_answer` LLM adapter abstracted as
`callRag`. -/
def node_answer (callRag : String → List ChunkHit → String × List LCCitation)
    (st0 : LCState) : LCState :=
  let st := bumpStep st0
  if ¬ st.evidence_sufficient then st
  else if st.evidence.isEmpty then st
  else
    let out := callRag st.question st.evidence
    { st with draft_answer := pyStrip out.1, citations := out.2 }

/-- `node_verify_or_refuse`. -/
def node_verify_or_refuse (st0 : LCState) : LCState :=
  let st := bumpStep st0
  let evidence := st.evidence
  let citations := st.citations
  let draft := pyStrip st.draft_answer
  let sufficient := st.evidence_sufficient
  if ¬ sufficient ∨ draft = "" ∨ evidence.isEmpty ∨ citations.isEmpty then
    let refusal_reason := deriveRefusalReason st sufficient draft evidence citations
    { st with refusal_reason := refusal_reason, citations := [],
              final_answer := refusalMessage refusal_reason }
  else
    { st with refusal_reason := "", final_answer := draft }

/-- The graph's node labels. -/
inductive LCNode : Type
  | route | retrieve | assess_evidence | refine_query | answer | verify_or_refuse
deriving DecidableEq

/-- The `_route_edge` conditional. -/
def routeEdge (st : LCState) : LCNode :=
  let action := match st.plan with | some p => p.action | none => "retrieve"
  if action = "retrieve" ∨ action = "resolve_definition" ∨ action = "compare" ∨
      action = "summarize" then LCNode.retrieve
  else if action = "answer" then LCNode.answer
  else LCNode.verify_or_refuse

/-- The `_assess_edge` conditional. -/
def assessEdge (b : AgentBudgets) (st : LCState) : LCNode :=
  if st.evidence_sufficient then LCNode.answer
  else if (budgetLimitReason b st).isSome then LCNode.verify_or_refuse
  else LCNode.refine_query

/-- The `_refine_edge` conditional. -/
def refineEdge (b : AgentBudgets) (st : LCState) : LCNode :=
  if (budgetLimitReason b st).isSome then LCNode.verify_or_refuse
  else LCNode.retrieve

/-- Execution of the compiled graph: run the node, follow its edge,
recurse on the remaining recursion budget; `none` models LangGraph's
`GraphRecursionError`. -/
def runGraphFrom (b : AgentBudgets) (tools : LCTools)
    (anchorsOf : String → List String) (cT : String → Option (String × String))
    (refineB : LCState → String × String)
    (callRag : String → List ChunkHit → String × List LCCitation) :
    Nat → LCNode → LCState → Option LCState
  | 0, _, _ => none
  | fuel + 1, n, st =>
    match n with
    | LCNode.route =>
      let st2 := node_route b cT st
      runGraphFrom b tools anchorsOf cT refineB callRag fuel (routeEdge st2) st2
    | LCNode.retrieve =>
      let st2 := node_retrieve b tools st
      runGraphFrom b tools anchorsOf cT refineB callRag fuel LCNode.assess_evidence st2
    | LCNode.assess_evidence =>
      let st2 := node_assess_evidence b anchorsOf cT st
      runGraphFrom b tools anchorsOf cT refineB callRag fuel (assessEdge b st2) st2
    | LCNode.refine_query =>
      let st2 := node_refine_query b refineB st
      runGraphFrom b tools anchorsOf cT refineB callRag fuel (refineEdge b st2) st2
    | LCNode.answer =>
      let st2 := node_answer callRag st
      runGraphFrom b tools anchorsOf cT refineB callRag fuel LCNode.verify_or_refuse st2
    | LCNode.verify_or_refuse => some (node_verify_or_refuse st)

/-- `run_agent`: invoke the graph on `init_state(question)` from the
entry point `route` with `recursion_limit = max(20, MAX_STEPS * 4)`. -/
def run_agent (b : AgentBudgets) (tools : LCTools)
    (anchorsOf : String → List String) (cT : String → Option (String × String))
    (refineB : LCState → String × String)
    (callRag : String → List ChunkHit → String × List LCCitation)
    (question : String) : Option LCState :=
  runGraphFrom b tools anchorsOf cT refineB callRag (max 20 (b.maxSteps * 4))
    LCNode.route (initState question)

/-- The generic refusal message of `_refusal_message`'s final branch. -/
def agentGenericRefusal : String :=
  "I do not have enough citable evidence in the indexed NIST documents to answer that reliably."

/-- Concrete budgets for the C4 counterexample: `max_steps = 8`,
`max_tool_calls = 1`, `max_rounds = 3`, `min_evidence_hits = 2`. -/
def c4b : AgentBudgets := ⟨8, 1, 3, 2⟩

/-- A single retrieved chunk for the C4 scenario. -/
def c4hit : ChunkHit := ⟨1, "ck4", "FIPS203", 3, 3, "ML-KEM overview"⟩

/-- Tools that always return exactly the one chunk `c4hit`. -/
def c4tools : LCTools :=
  ⟨fun _ _ => [c4hit], fun _ _ => [c4hit], fun _ _ _ => [c4hit], fun _ => [c4hit]⟩

/-! ## Theorems -/

theorem length_joinBlocks_cons (b : String) (r : List String) (hr : r ≠ []) :
    (joinBlocks (b :: r)).length = b.length + 2 + (joinBlocks r).length := by
  match r with
  | [] => exact absurd rfl hr
  | x :: t =>
    show (b ++ "\n\n" ++ joinBlocks (x :: t)).length = _
    have h2 : ("\n\n" : String).length = 2 := rfl
    simp [String.length_append, h2]

theorem length_le_joinBlocks {b : String} {blocks : List String} (h : b ∈ blocks) :
    b.length ≤ (joinBlocks blocks).length := by
  induction blocks with
  | nil => cases h
  | cons x t ih =>
    rcases List.mem_cons.mp h with h | h
    · subst h
      cases t with
      | nil => simp [joinBlocks]
      | cons y s =>
        rw [length_joinBlocks_cons b (y :: s) (by simp)]
        omega
    · cases t with
      | nil => cases h
      | cons y s =>
        rw [length_joinBlocks_cons x (y :: s) (by simp)]
        have := ih h
        omega

theorem length_joinBlocks_append_le (p r : List String) :
    (joinBlocks p).length ≤ (joinBlocks (p ++ r)).length := by
  induction p with
  | nil => simp [joinBlocks]
  | cons x t ih =>
    cases t with
    | nil =>
      cases r with
      | nil => simp
      | cons y s =>
        simpa [joinBlocks] using
          @length_le_joinBlocks x (x :: (y :: s)) (by simp)
    | cons z u =>
      rw [length_joinBlocks_cons x (z :: u) (by simp),
        show (x :: (z :: u)) ++ r = x :: ((z :: u) ++ r) from rfl,
        length_joinBlocks_cons x ((z :: u) ++ r) (by simp)]
      omega

theorem stripWith_length_le (p : Char → Bool) (l : List Char) :
    (stripWith p l).length ≤ l.length := by
  have h1 : (l.dropWhile p).length ≤ l.length :=
    List.Sublist.length_le (List.dropWhile_sublist p)
  have h2 : ((l.dropWhile p).reverse.dropWhile p).length ≤ (l.dropWhile p).reverse.length :=
    List.Sublist.length_le (List.dropWhile_sublist p)
  simp only [stripWith, List.length_reverse]
  simp only [List.length_reverse] at h2
  omega

theorem pyStrip_length_le (s : String) : (pyStrip s).length ≤ s.length :=
  stripWith_length_le pyIsSpace s.data

theorem length_joinBlocks_append_single (p : List String) (b : String) :
    (joinBlocks (p ++ [b])).length =
      (joinBlocks p).length + (if p = [] then 0 else 2) + b.length := by
  induction p with
  | nil => simp [joinBlocks]
  | cons x t ih =>
    cases t with
    | nil =>
      simp only [List.nil_append, List.cons_append]
      rw [length_joinBlocks_cons x [b] (by simp)]
      simp [joinBlocks]
    | cons y s =>
      have h1 := length_joinBlocks_cons x (y :: (s ++ [b])) (by simp)
      have h2 := length_joinBlocks_cons x (y :: s) (by simp)
      simp only [List.cons_append] at ih ⊢
      rw [h1, h2, ih]
      simp
      omega

theorem flushPack_chunks_mem {cfg : ChunkConfig} {st : PackState} {c : String}
    (h : c ∈ (flushPack cfg st).chunks) :
    c ∈ st.chunks ∨ cfg.min_chars ≤ c.length := by
  unfold flushPack at h
  by_cases hc : st.cur = []
  · simp [hc] at h; exact Or.inl h
  · simp only [hc, if_neg, if_false] at h
    by_cases hl : cfg.min_chars ≤ (pyStrip (joinBlocks st.cur)).length
    · simp [hl] at h
      rcases h with h | h
      · exact Or.inl h
      · subst h; exact Or.inr hl
    · simp [hl] at h
      exact Or.inl h

theorem packStep_chunks_mem {cfg : ChunkConfig} {st : PackState} {blk c : String}
    (h : c ∈ (packStep cfg st blk).chunks) :
    c ∈ st.chunks ∨ cfg.min_chars ≤ c.length ∨
      (cfg.max_chars < blk.length ∧ c = pyStrip blk) := by
  unfold packStep at h
  by_cases h1 : cfg.max_chars < blk.length ∧ st.cur = []
  · simp [h1] at h
    rcases h with h | h
    · exact Or.inl h
    · exact Or.inr (Or.inr ⟨h1.1, h⟩)
  · simp only [if_neg h1] at h
    by_cases h2 : st.cur_len + (if st.cur = [] then 0 else 2) + blk.length ≤ cfg.target_chars ∨
        (st.cur_len + (if st.cur = [] then 0 else 2) + blk.length ≤ cfg.max_chars ∧
          st.cur_len < cfg.min_chars)
    · simp [h2] at h
      exact Or.inl h
    · simp only [if_neg h2] at h
      by_cases h3 : cfg.max_chars < blk.length ∧ (flushPack cfg st).cur = []
      · simp [h3] at h
        rcases h with h | h
        · rcases flushPack_chunks_mem h with h | h
          · exact Or.inl h
          · exact Or.inr (Or.inl h)
        · exact Or.inr (Or.inr ⟨h3.1, h⟩)
      · simp only [if_neg h3] at h
        rcases flushPack_chunks_mem h with h | h
        · exact Or.inl h
        · exact Or.inr (Or.inl h)

theorem packFold_chunks_mem {cfg : ChunkConfig} :
    ∀ (blocks : List String) (st : PackState) (c : String),
      c ∈ (blocks.foldl (packStep cfg) st).chunks →
      c ∈ st.chunks ∨ cfg.min_chars ≤ c.length ∨
        ∃ b ∈ blocks, cfg.max_chars < b.length ∧ c = pyStrip b := by
  intro blocks
  induction blocks with
  | nil => intro st c h; exact Or.inl h
  | cons x t ih =>
    intro st c h
    simp only [List.foldl_cons] at h
    rcases ih (packStep cfg st x) c h with h' | h' | ⟨b, hb, hob⟩
    · rcases packStep_chunks_mem h' with h'' | h'' | h''
      · exact Or.inl h''
      · exact Or.inr (Or.inl h'')
      · exact Or.inr (Or.inr ⟨x, by simp, h''⟩)
    · exact Or.inr (Or.inl h')
    · exact Or.inr (Or.inr ⟨b, by simp [hb], hob⟩)

theorem packSmall_fold {cfg : ChunkConfig} (hmm : cfg.min_chars ≤ cfg.max_chars) :
    ∀ (r p : List String),
      (joinBlocks (p ++ r)).length < cfg.min_chars →
      r.foldl (packStep cfg) ⟨[], p, (joinBlocks p).length⟩ =
        ⟨[], p ++ r, (joinBlocks (p ++ r)).length⟩ := by
  intro r
  induction r with
  | nil => intro p _; simp
  | cons blk rest ih =>
    intro p htot
    have hblk : blk.length ≤ (joinBlocks (p ++ blk :: rest)).length :=
      length_le_joinBlocks (by simp)
    have hstep : (joinBlocks (p ++ [blk])).length ≤ (joinBlocks (p ++ blk :: rest)).length := by
      have := length_joinBlocks_append_le (p ++ [blk]) rest
      simpa using this
    have hcur : (joinBlocks p).length ≤ (joinBlocks (p ++ blk :: rest)).length := by
      have := length_joinBlocks_append_le p (blk :: rest)
      simpa using this
    have happ := length_joinBlocks_append_single p blk
    have hfirst : ¬(cfg.max_chars < blk.length ∧ (PackState.mk [] p (joinBlocks p).length).cur = []) := by
      rintro ⟨hgt, -⟩
      omega
    have hacc : (joinBlocks p).length + (if p = [] then 0 else 2) + blk.length ≤ cfg.target_chars ∨
        ((joinBlocks p).length + (if p = [] then 0 else 2) + blk.length ≤ cfg.max_chars ∧
          (joinBlocks p).length < cfg.min_chars) := by
      right
      constructor
      · omega
      · omega
    have hone : packStep cfg ⟨[], p, (joinBlocks p).length⟩ blk =
        ⟨[], p ++ [blk], (joinBlocks (p ++ [blk])).length⟩ := by
      unfold packStep
      simp only [if_neg hfirst]
      rw [if_pos hacc]
      simp [happ]
    simp only [List.foldl_cons, hone]
    have := ih (p ++ [blk]) (by simpa using htot)
    simpa using this

/-- Claim C10: `pack_blocks_into_chunks` (`rag/chunk.py`) never emits a
chunk shorter than `min_chars` except via the oversized-standalone path,
and when the total packed text (blocks joined with the two-character
separator) is shorter than `min_chars`, the final flush silently discards
it, so the block list produces zero chunks. -/
theorem C10_packer_min_chars :
    (∀ (blocks : List String) (cfg : ChunkConfig),
        ∀ c ∈ pack_blocks_into_chunks blocks cfg, packEmitOk blocks cfg c) ∧
    (∀ (blocks : List String) (cfg : ChunkConfig),
        cfg.min_chars ≤ cfg.max_chars →
        (joinBlocks blocks).length < cfg.min_chars →
        pack_blocks_into_chunks blocks cfg = []) := by
  constructor
  · intro blocks cfg c hc
    unfold pack_blocks_into_chunks at hc
    rcases flushPack_chunks_mem hc with h | h
    · rcases packFold_chunks_mem blocks _ c h with h' | h' | h'
      · simp at h'
      · exact Or.inl h'
      · exact Or.inr h'
    · exact Or.inl h
  · intro blocks cfg hmm htot
    unfold pack_blocks_into_chunks
    have h0 : (joinBlocks ([] ++ blocks)).length < cfg.min_chars := by simpa using htot
    have hfold := packSmall_fold hmm blocks [] (by simpa using h0)
    have hjnil : (joinBlocks ([] : List String)).length = 0 := by simp [joinBlocks]
    rw [hjnil] at hfold
    simp only [List.nil_append] at hfold
    rw [hfold]
    unfold flushPack
    by_cases hb : blocks = []
    · simp [hb]
    · have hlt : ¬ cfg.min_chars ≤ (pyStrip (joinBlocks blocks)).length := by
        have := pyStrip_length_le (joinBlocks blocks)
        omega
      simp [hb, hlt]

/-- Witness for C10 at concrete inputs: a short block list is discarded
entirely, and an emitted chunk of a non-discarded list satisfies the
emission invariant. -/
theorem C10_packer_min_chars_witness :
    ((⟨1400, 1, 250, 2200⟩ : ChunkConfig).min_chars ≤
        (⟨1400, 1, 250, 2200⟩ : ChunkConfig).max_chars ∧
      (joinBlocks ["ab"]).length < (⟨1400, 1, 250, 2200⟩ : ChunkConfig).min_chars ∧
      pack_blocks_into_chunks ["ab"] ⟨1400, 1, 250, 2200⟩ = []) ∧
    ("aaaaaaaa" ∈ pack_blocks_into_chunks ["aaaaaaaa"] ⟨10, 1, 2, 12⟩ ∧
      packEmitOk ["aaaaaaaa"] ⟨10, 1, 2, 12⟩ "aaaaaaaa") :=
  ⟨⟨by decide, by decide,
      C10_packer_min_chars.2 ["ab"] ⟨1400, 1, 250, 2200⟩ (by decide) (by decide)⟩,
    ⟨by decide,
      C10_packer_min_chars.1 ["aaaaaaaa"] ⟨10, 1, 2, 12⟩ "aaaaaaaa" (by decide)⟩⟩

/-- Claim C9 is false of the code: with `target_chars = 10`,
`overlap_blocks = 1`, `min_chars = 2`, `max_chars = 12`, packing the
blocks `["aaaaaaaa", "bbbbbbbb", "cc"]` (each of length at most 12)
emits the two-block chunk `"aaaaaaaa\n\nbbbbbbbb"` of length 18 > 12:
after a flush the loop resets `cur_len` to `len(blk)` while the carried
overlap block is still in `cur`, so `max_chars` is breached by a
multi-block chunk. -/
theorem C9_multiblock_chunk_exceeds_max_chars :
    pack_blocks_into_chunks ["aaaaaaaa", "bbbbbbbb", "cc"] ⟨10, 1, 2, 12⟩ =
      ["aaaaaaaa", "aaaaaaaa\n\nbbbbbbbb", "bbbbbbbb\n\ncc"] ∧
    (18 : Nat) = ("aaaaaaaa\n\nbbbbbbbb" : String).length ∧
    (∀ b ∈ ["aaaaaaaa", "bbbbbbbb", "cc"], b.length ≤ 12) := by
  refine ⟨by decide, by decide, by decide⟩

theorem forall₂_comp {α β γ : Type} {R1 : α → β → Prop} {R2 : β → γ → Prop} :
    ∀ {l1 : List α} {l2 : List β} {l3 : List γ},
      List.Forall₂ R1 l1 l2 → List.Forall₂ R2 l2 l3 →
      List.Forall₂ (fun a c => ∃ b, R1 a b ∧ R2 b c) l1 l3 := by
  intro l1 l2 l3 h12 h23
  induction h12 generalizing l3 with
  | nil => cases h23; exact List.Forall₂.nil
  | cons hab htail ih =>
    cases h23 with
    | cons hbc htail2 =>
      exact List.Forall₂.cons ⟨_, hab, hbc⟩ (ih htail2)

theorem forall₂_mem_right {α β : Type} {R : α → β → Prop} :
    ∀ {l1 : List α} {l2 : List β}, List.Forall₂ R l1 l2 →
      ∀ q ∈ l2, ∃ p ∈ l1, R p q := by
  intro l1 l2 h
  induction h with
  | nil => intro q hq; cases hq
  | cons hab htail ih =>
    intro q hq
    rcases List.mem_cons.mp hq with hq | hq
    · exact ⟨_, by simp, hq ▸ hab⟩
    · rcases ih q hq with ⟨p, hp, hr⟩
      exact ⟨p, by simp [hp], hr⟩

theorem forall₂_map_eq {α β γ : Type} {R : α → β → Prop} {f : α → γ} {g : β → γ}
    (hR : ∀ p q, R p q → f p = g q) :
    ∀ {l1 : List α} {l2 : List β}, List.Forall₂ R l1 l2 →
      l1.map f = l2.map g := by
  intro l1 l2 h
  induction h with
  | nil => rfl
  | cons hab htail ih => simp [hR _ _ hab, ih]

theorem markFirst_weak (h : EvalHit) :
    ∀ l : List (GoldSpan × Bool),
      List.Forall₂ (fun p q => p.1 = q.1 ∧ (p.2 = true → q.2 = true) ∧
          (q.2 = true → p.2 = true ∨ hit_matches_gold h p.1 = true))
        l (markFirst h l).1 := by
  intro l
  induction l with
  | nil => exact List.Forall₂.nil
  | cons hd t ih =>
    rcases hd with ⟨g, u⟩
    by_cases hc : ¬ u = true ∧ hit_matches_gold h g = true
    · simp only [markFirst, if_pos hc]
      refine List.Forall₂.cons ⟨rfl, by simp, fun _ => Or.inr hc.2⟩ ?_
      exact (List.forall₂_same).mpr (fun p _ => ⟨rfl, id, fun hq => Or.inl hq⟩)
    · simp only [markFirst, if_neg hc]
      exact List.Forall₂.cons ⟨rfl, id, fun hq => Or.inl hq⟩ ih

theorem markFirst_covers (h : EvalHit) :
    ∀ l : List (GoldSpan × Bool),
      List.countP (fun p => hit_matches_gold h p.1) l ≤ 1 →
      List.Forall₂ (fun p q => p.1 = q.1 ∧ (p.2 = true → q.2 = true) ∧
          (hit_matches_gold h p.1 = true → q.2 = true))
        l (markFirst h l).1 := by
  intro l
  induction l with
  | nil => intro _; exact List.Forall₂.nil
  | cons hd t ih =>
    intro hcnt
    rcases hd with ⟨g, u⟩
    by_cases hm : hit_matches_gold h g = true
    · have hzero : List.countP (fun p => hit_matches_gold h p.1) t = 0 := by
        have hstep : List.countP (fun p => hit_matches_gold h p.1) ((g, u) :: t) =
            List.countP (fun p => hit_matches_gold h p.1) t + 1 := by
          simp [List.countP_cons, hm]
        omega
      have hnone : ∀ p ∈ t, ¬ hit_matches_gold h p.1 = true :=
        fun p hp => by
          have := List.countP_eq_zero.mp hzero p hp
          simpa using this
      by_cases hc : ¬ u = true ∧ hit_matches_gold h g = true
      · simp only [markFirst, if_pos hc]
        refine List.Forall₂.cons ⟨rfl, by simp, by simp⟩ ?_
        exact (List.forall₂_same).mpr
          (fun p hp => ⟨rfl, id, fun hq => absurd hq (hnone p hp)⟩)
      · have hu : u = true := by
          by_contra hu
          exact hc ⟨hu, hm⟩
        simp only [markFirst, if_neg hc]
        exact List.Forall₂.cons ⟨rfl, id, fun _ => hu⟩ (ih (by omega))
    · by_cases hc : ¬ u = true ∧ hit_matches_gold h g = true
      · exact absurd hc.2 hm
      · simp only [markFirst, if_neg hc]
        have hcnt2 : List.countP (fun p => hit_matches_gold h p.1) t ≤ 1 := by
          have hstep : List.countP (fun p => hit_matches_gold h p.1) ((g, u) :: t) =
              List.countP (fun p => hit_matches_gold h p.1) t := by
            simp [List.countP_cons, hm]
          omega
        exact List.Forall₂.cons ⟨rfl, id, fun hmp => absurd hmp hm⟩ (ih hcnt2)

theorem goldCovered_cons (h : EvalHit) (hs : List EvalHit) (g : GoldSpan) :
    goldCovered (h :: hs) g = (hit_matches_gold h g || goldCovered hs g) := by
  simp [goldCovered]

theorem markFirst_map_fst (h : EvalHit) (l : List (GoldSpan × Bool)) :
    (markFirst h l).1.map Prod.fst = l.map Prod.fst :=
  (forall₂_map_eq (fun p q hpq => hpq.1) (markFirst_weak h l)).symm

theorem markFirst_count (h : EvalHit) :
    ∀ l : List (GoldSpan × Bool),
      countMarked (markFirst h l).1 =
        countMarked l + (if (markFirst h l).2 then 1 else 0) := by
  intro l
  induction l with
  | nil => simp [markFirst, countMarked]
  | cons hd t ih =>
    rcases hd with ⟨g, u⟩
    by_cases hc : ¬ u = true ∧ hit_matches_gold h g = true
    · have hu : u = false := by
        rcases hc with ⟨hu, -⟩
        exact Bool.not_eq_true u ▸ (by simpa using hu)
      simp [markFirst, hc, countMarked, List.countP_cons, hu]
    · simp only [markFirst, if_neg hc]
      simp [countMarked, List.countP_cons] at ih ⊢
      omega

theorem countP_eq_of_map_fst_eq {l1 l2 : List (GoldSpan × Bool)}
    (hm : l1.map Prod.fst = l2.map Prod.fst) (P : GoldSpan → Bool) :
    l1.countP (fun p => P p.1) = l2.countP (fun p => P p.1) := by
  have e1 : l1.countP (fun p => P p.1) = (l1.map Prod.fst).countP P := by
    rw [List.countP_map]
    rfl
  have e2 : l2.countP (fun p => P p.1) = (l2.map Prod.fst).countP P := by
    rw [List.countP_map]
    rfl
  rw [e1, e2, hm]

theorem recallFold_weak :
    ∀ (hs : List EvalHit) (l : List (GoldSpan × Bool)) (n : Nat),
      List.Forall₂ (fun p q => p.1 = q.1 ∧ (p.2 = true → q.2 = true) ∧
          (q.2 = true → p.2 = true ∨ goldCovered hs p.1 = true))
        l (hs.foldl recallStep (l, n)).1 := by
  intro hs
  induction hs with
  | nil =>
    intro l n
    exact (List.forall₂_same).mpr (fun p _ => ⟨rfl, id, fun hq => Or.inl hq⟩)
  | cons h rest ih =>
    intro l n
    have hcomp := forall₂_comp (markFirst_weak h l)
      (ih (markFirst h l).1 (n + if (markFirst h l).2 then 1 else 0))
    have : (List.foldl recallStep (l, n) (h :: rest)).1 =
        (rest.foldl recallStep ((markFirst h l).1,
          n + if (markFirst h l).2 then 1 else 0)).1 := by
      simp [recallStep]
    rw [this]
    refine hcomp.imp ?_
    rintro p q ⟨b, ⟨hfst1, hpres1, hback1⟩, ⟨hfst2, hpres2, hback2⟩⟩
    refine ⟨hfst1.trans hfst2, fun hp => hpres2 (hpres1 hp), ?_⟩
    intro hq
    rcases hback2 hq with hb | hcov
    · rcases hback1 hb with hp | hmatch
      · exact Or.inl hp
      · refine Or.inr ?_
        rw [goldCovered_cons]
        simp [hmatch]
    · refine Or.inr ?_
      rw [goldCovered_cons]
      rw [← hfst1] at hcov
      simp [hcov]

theorem recallFold_covers :
    ∀ (hs : List EvalHit) (l : List (GoldSpan × Bool)) (n : Nat),
      (∀ h ∈ hs, l.countP (fun p => hit_matches_gold h p.1) ≤ 1) →
      List.Forall₂ (fun p q => p.1 = q.1 ∧ (p.2 = true → q.2 = true) ∧
          (goldCovered hs p.1 = true → q.2 = true))
        l (hs.foldl recallStep (l, n)).1 := by
  intro hs
  induction hs with
  | nil =>
    intro l n _
    exact (List.forall₂_same).mpr
      (fun p _ => ⟨rfl, id, fun hq => by simp [goldCovered] at hq⟩)
  | cons h rest ih =>
    intro l n huniq
    have hml := markFirst_covers h l (huniq h (by simp))
    have hfst : l.map Prod.fst = (markFirst h l).1.map Prod.fst :=
      (markFirst_map_fst h l).symm
    have huniq2 : ∀ h' ∈ rest,
        (markFirst h l).1.countP (fun p => hit_matches_gold h' p.1) ≤ 1 := by
      intro h' hh'
      rw [← countP_eq_of_map_fst_eq hfst]
      exact huniq h' (by simp [hh'])
    have hcomp := forall₂_comp hml
      (ih (markFirst h l).1 (n + if (markFirst h l).2 then 1 else 0) huniq2)
    have : (List.foldl recallStep (l, n) (h :: rest)).1 =
        (rest.foldl recallStep ((markFirst h l).1,
          n + if (markFirst h l).2 then 1 else 0)).1 := by
      simp [recallStep]
    rw [this]
    refine hcomp.imp ?_
    rintro p q ⟨b, ⟨hfst1, hpres1, hcov1⟩, ⟨hfst2, hpres2, hcov2⟩⟩
    refine ⟨hfst1.trans hfst2, fun hp => hpres2 (hpres1 hp), ?_⟩
    intro hcov
    rw [goldCovered_cons] at hcov
    rcases Bool.or_eq_true_iff.mp hcov with hmatch | hrest
    · exact hpres2 (hcov1 hmatch)
    · rw [hfst1] at hrest
      exact hcov2 hrest

theorem recallFold_count :
    ∀ (hs : List EvalHit) (l : List (GoldSpan × Bool)) (n : Nat),
      (hs.foldl recallStep (l, n)).2 + countMarked l =
        n + countMarked (hs.foldl recallStep (l, n)).1 := by
  intro hs
  induction hs with
  | nil => intro l n; simp
  | cons h rest ih =>
    intro l n
    have hstep : List.foldl recallStep (l, n) (h :: rest) =
        rest.foldl recallStep ((markFirst h l).1,
          n + if (markFirst h l).2 then 1 else 0) := by
      simp [recallStep]
    rw [hstep]
    have hmc := markFirst_count h l
    have := ih (markFirst h l).1 (n + if (markFirst h l).2 then 1 else 0)
    omega

theorem countMarked_init (gold : List GoldSpan) :
    countMarked (gold.map (fun g => (g, false))) = 0 := by
  simp [countMarked, List.countP_map]

/-- Claim C8 (amended): `recall_at_k` (`eval/metrics.py`) credits each
top-k hit to at most one gold span (the first unused span it matches,
scanning golds in order, with a `break`).  Its value never exceeds the
fraction of gold spans covered by some top-k hit, and equals that
fraction whenever no single top-k hit matches two distinct gold spans;
a hit matching two gold spans is counted for only one of them. -/
theorem C8_recall_at_k_greedy :
    ∀ (hits : List EvalHit) (gold : List GoldSpan) (k : Nat),
      gold ≠ [] →
      recall_at_k hits gold k ≤ specRecall hits gold k ∧
      ((∀ h ∈ hits.take k, (gold.filter (fun g => hit_matches_gold h g)).length ≤ 1) →
        recall_at_k hits gold k = specRecall hits gold k) := by
  intro hits gold k hg
  set hs := hits.take k with hhs
  set l0 : List (GoldSpan × Bool) := gold.map (fun g => (g, false)) with hl0
  set fin := hs.foldl recallStep (l0, 0) with hfin
  have hcount : fin.2 = countMarked fin.1 := by
    have hrc := recallFold_count hs l0 0
    rw [← hfin] at hrc
    have hz := countMarked_init gold
    rw [← hl0] at hz
    omega
  have hweak := recallFold_weak hs l0 0
  have hmapfst : l0.map Prod.fst = fin.1.map Prod.fst :=
    forall₂_map_eq (fun p q hpq => hpq.1) hweak
  have hl0fst : l0.map Prod.fst = gold := by
    have hid : (Prod.fst ∘ fun g : GoldSpan => (g, false)) = id := rfl
    rw [hl0, List.map_map, hid, List.map_id]
  have hfinfst : fin.1.map Prod.fst = gold := by rw [← hmapfst, hl0fst]
  have hmarked_cov : ∀ q ∈ fin.1, q.2 = true → goldCovered hs q.1 = true := by
    intro q hq hq2
    rcases forall₂_mem_right hweak q hq with ⟨p, hp, hfst1, _, hback⟩
    rcases hback hq2 with hp2 | hcov
    · exfalso
      rw [hl0] at hp
      rcases List.mem_map.mp hp with ⟨g, -, hgp⟩
      rw [← hgp] at hp2
      simp at hp2
    · rw [← hfst1]
      exact hcov
  have hspec : specGoldCovered hits gold k =
      fin.1.countP (fun q => goldCovered hs q.1) := by
    rw [specGoldCovered, ← List.countP_eq_length_filter]
    have := @countP_eq_of_map_fst_eq l0 fin.1 hmapfst
      (fun g => goldCovered hs g)
    have hgoldl0 : gold.countP (fun g => goldCovered hs g) =
        l0.countP (fun q => goldCovered hs q.1) := by
      rw [← hl0fst, List.countP_map]
      rfl
    rw [show (fun g => (hits.take k).any (fun h => hit_matches_gold h g)) =
        (fun g => goldCovered hs g) from rfl]
    rw [hgoldl0, this]
  have hle : fin.2 ≤ specGoldCovered hits gold k := by
    rw [hcount, hspec, countMarked]
    exact List.countP_mono_left hmarked_cov
  have hlen : (0 : ℚ) < (gold.length : ℚ) := by
    have : 0 < gold.length := List.length_pos.mpr hg
    exact_mod_cast this
  constructor
  · rw [recall_at_k, specRecall, if_neg hg, if_neg hg]
    rw [div_le_div_iff_of_pos_right hlen]
    exact_mod_cast hle
  · intro huniq
    have huniq' : ∀ h ∈ hs, l0.countP (fun p => hit_matches_gold h p.1) ≤ 1 := by
      intro h hh
      have := huniq h (hhs ▸ hh)
      rw [← List.countP_eq_length_filter] at this
      have hcast : gold.countP (fun g => hit_matches_gold h g) =
          l0.countP (fun p => hit_matches_gold h p.1) := by
        rw [← hl0fst, List.countP_map]
        rfl
      omega
    have hcovers := recallFold_covers hs l0 0 huniq'
    have hcov_marked : ∀ q ∈ fin.1, goldCovered hs q.1 = true → q.2 = true := by
      intro q hq hcov
      rcases forall₂_mem_right hcovers q hq with ⟨p, hp, hfst1, -, hcc⟩
      exact hcc (by rw [hfst1]; exact hcov)
    have heq : fin.2 = specGoldCovered hits gold k := by
      rw [hcount, hspec, countMarked]
      exact Nat.le_antisymm (List.countP_mono_left hmarked_cov)
        (List.countP_mono_left hcov_marked)
    calc recall_at_k hits gold k = (fin.2 : ℚ) / (gold.length : ℚ) := by
          rw [recall_at_k, if_neg hg]
      _ = ((specGoldCovered hits gold k : ℚ)) / (gold.length : ℚ) := by rw [heq]
      _ = specRecall hits gold k := by rw [specRecall, if_neg hg]

/-- Witness for C8 at concrete inputs: two hits each matching exactly one
of two gold spans give recall 1, matching the claimed fraction. -/
theorem C8_recall_at_k_greedy_witness :
    (([⟨"A", 1, 1⟩, ⟨"A", 9, 9⟩] : List GoldSpan) ≠ [] ∧
      ∀ h ∈ ([⟨"A", 1, 1⟩, ⟨"A", 9, 9⟩] : List EvalHit).take 2,
        (([⟨"A", 1, 1⟩, ⟨"A", 9, 9⟩] : List GoldSpan).filter
          (fun g => hit_matches_gold h g)).length ≤ 1) ∧
    recall_at_k [⟨"A", 1, 1⟩, ⟨"A", 9, 9⟩] [⟨"A", 1, 1⟩, ⟨"A", 9, 9⟩] 2 =
      specRecall [⟨"A", 1, 1⟩, ⟨"A", 9, 9⟩] [⟨"A", 1, 1⟩, ⟨"A", 9, 9⟩] 2 :=
  ⟨⟨by decide, by decide⟩,
    (C8_recall_at_k_greedy [⟨"A", 1, 1⟩, ⟨"A", 9, 9⟩] [⟨"A", 1, 1⟩, ⟨"A", 9, 9⟩] 2
      (by decide)).2 (by decide)⟩

/-- Claim C8 as stated is false of the code: a single top-1 hit that
matches two distinct gold spans yields `recall_at_k = 1/2`, not the
claimed fraction `1` of covered gold spans — the inner loop `break`s
after crediting the first matching span. -/
theorem C8_counter_single_hit_two_golds :
    recall_at_k [⟨"d", 1, 1⟩] [⟨"d", 1, 1⟩, ⟨"d", 1, 2⟩] 1 = 1 / 2 ∧
    specRecall [⟨"d", 1, 1⟩] [⟨"d", 1, 1⟩, ⟨"d", 1, 2⟩] 1 = 1 ∧
    ((1 : ℚ) / 2 ≠ 1) := by
  refine ⟨?_, ?_, by norm_num⟩
  · have h2 : (([⟨"d", 1, 1⟩] : List EvalHit).take 1).foldl recallStep
        (([⟨"d", 1, 1⟩, ⟨"d", 1, 2⟩] : List GoldSpan).map (fun g => (g, false)), 0) =
        ([(⟨"d", 1, 1⟩, true), (⟨"d", 1, 2⟩, false)], 1) := by decide
    rw [recall_at_k, if_neg (by decide)]
    rw [h2]
    norm_num
  · have h3 : specGoldCovered [⟨"d", 1, 1⟩] [⟨"d", 1, 1⟩, ⟨"d", 1, 2⟩] 1 = 2 := by decide
    rw [specRecall, if_neg (by decide), h3]
    norm_num

theorem sortByKey_perm {α κ : Type} [LinearOrder κ] (K : α → κ) (l : List α) :
    List.Perm (sortByKey K l) l :=
  List.perm_insertionSort _ l

theorem sortByKey_pairwise {α κ : Type} [LinearOrder κ] (K : α → κ) (l : List α) :
    (sortByKey K l).Pairwise (fun a b => K a ≤ K b) := by
  haveI h1 : IsTotal α (fun a b => K a ≤ K b) := ⟨fun a b => le_total (K a) (K b)⟩
  haveI h2 : IsTrans α (fun a b => K a ≤ K b) := ⟨fun a b c hab hbc => le_trans hab hbc⟩
  exact List.sorted_insertionSort _ l

/-- Claim C7 (amended): `BM25Retriever.search` returns at most `k` hits
sorted by descending BM25 score.  Equal-score documents are NOT
reordered by `doc_idx`: the stable sort keeps the order in which
documents first entered the score accumulator. -/
theorem C7_bm25_search_sorted :
    ∀ (r : BM25Retriever) (query : String) (k : Nat),
      (BM25Retriever.search r query k).Pairwise (fun a b => b.score ≤ a.score) ∧
      (BM25Retriever.search r query k).length ≤ k := by
  intro r query k
  unfold BM25Retriever.search
  by_cases hq : tokenize query = []
  · simp [hq]
  · simp only [if_neg hq]
    constructor
    · rw [List.pairwise_map]
      have hsorted := sortByKey_pairwise (fun p : Nat × ℚ => -p.2) (bm25Scores r (tokenize query))
      have htake : (List.take k (sortByKey (fun p : Nat × ℚ => -p.2)
          (bm25Scores r (tokenize query)))).Pairwise (fun a b => -a.2 ≤ -b.2) :=
        List.Pairwise.sublist (List.take_sublist k _) hsorted
      refine htake.imp ?_
      intro a b hab
      simpa using neg_le_neg_iff.mp hab
    · rw [List.length_map]
      have := List.length_take k (sortByKey (fun p : Nat × ℚ => -p.2)
        (bm25Scores r (tokenize query)))
      omega

/-- Claim C7 is false as stated: on `bm25TieExample` (docs 0 = "b",
docs 1 = "a"), the query `"a b"` gives both documents the same score,
yet the output lists doc_idx 1 before doc_idx 0 (the `scores` dict was
populated by term "a" first), not in ascending `doc_idx`. -/
theorem C7_counter_tie_not_doc_idx :
    (BM25Retriever.search bm25TieExample "a b" 2).map ChunkHit.chunk_id = ["d1", "d0"] ∧
    (∃ s : ℚ, (BM25Retriever.search bm25TieExample "a b" 2).map ChunkHit.score = [s, s]) ∧
    (bm25TieExample.docs 0).chunk_id = "d0" ∧ (bm25TieExample.docs 1).chunk_id = "d1" := by
  have htok : tokenize "a b" = ["a", "b"] := by decide
  have hqtf : (["a", "b"] : List String).foldl
      (fun acc term => alUpdate term (fun o => o.getD 0 + 1) acc) ([] : List (String × Nat)) =
      [("a", 1), ("b", 1)] := by decide
  unfold BM25Retriever.search
  rw [htok]
  simp only [bm25Scores, hqtf]
  norm_num [bm25TieExample, alUpdate, bm25TermScore, sortByKey, List.insertionSort,
    List.orderedInsert]
  exact ⟨by simp, 1, by simp⟩

/-- Claim C2: the `BM25Retriever` class defines no `score_text` method,
so `rerank_fused_hits` — which calls `bm25.score_text(query, hit.text)`
for every candidate — raises `AttributeError` on any non-empty fused
pool instead of reranking it. -/
theorem C2_bm25_score_text_missing :
    bm25MethodNames.contains "score_text" = false ∧
    ∀ (query : String) (hits : List ChunkHit) (top_k : Nat) (r : BM25Retriever),
      hits ≠ [] →
      rerank_fused_hits query hits top_k r =
        Except.error "AttributeError: BM25Retriever object has no attribute score_text" := by
  refine ⟨by decide, ?_⟩
  intro query hits top_k r hne
  cases hits with
  | nil => exact absurd rfl hne
  | cons h t =>
    simp [rerank_fused_hits, rerankLoop, bm25ScoreTextAttr]

/-- Witness for C2: the rerank stage fails on a concrete one-element
pool. -/
theorem C2_bm25_score_text_missing_witness :
    (([(default : ChunkHit)] : List ChunkHit) ≠ []) ∧
    rerank_fused_hits "ML-KEM" [(default : ChunkHit)] 5 bm25TieExample =
      Except.error "AttributeError: BM25Retriever object has no attribute score_text" :=
  ⟨by simp,
    C2_bm25_score_text_missing.2 "ML-KEM" [(default : ChunkHit)] 5 bm25TieExample (by simp)⟩

/-- Claim C6 (amended): with a final result count of 0, `rrf_fuse`
returns an empty list (before its `k0` check) and `BM25Retriever.search`
returns an empty list, but `hybrid_search`, `base_search` and both
`retrieve` dispatch paths raise `ValueError("top_k must be > 0")`
instead of returning an empty result. -/
theorem C6_topk_zero :
    (∀ (rankings : List (List ChunkHit)) (k0 : Int),
      rrf_fuse rankings 0 k0 = Except.ok []) ∧
    (∀ (r : BM25Retriever) (q : String), BM25Retriever.search r q 0 = []) ∧
    (∀ fs b q cm k0 fus rr pool,
      hybrid_search fs b q 0 cm k0 fus rr pool = Except.error "top_k must be > 0") ∧
    (∀ bs b q cm k0 fus rr pool,
      base_search bs b q 0 cm k0 fus rr pool = Except.error "top_k must be > 0") ∧
    (∀ fs bs b q fus cm k0 rr pool,
      retrieve fs bs b q 0 "hybrid" fus cm k0 rr pool = Except.error "top_k must be > 0" ∧
      retrieve fs bs b q 0 "base" fus cm k0 rr pool = Except.error "top_k must be > 0") := by
  refine ⟨?_, ?_, ?_, ?_, ?_⟩
  · intro rankings k0
    simp [rrf_fuse]
  · intro r q
    by_cases hq : tokenize q = [] <;> simp [BM25Retriever.search, hq]
  · intro fs b q cm k0 fus rr pool
    simp [hybrid_search]
  · intro bs b q cm k0 fus rr pool
    simp [base_search]
  · intro fs bs b q fus cm k0 rr pool
    constructor
    · rw [retrieve]
      rw [if_pos (by decide)]
      simp [hybrid_search]
    · rw [retrieve]
      rw [if_neg (by decide), if_pos (by decide)]
      simp [base_search]

/-- Claim C6 as stated is false of the code: `hybrid_search` with
`top_k = 0` raises `ValueError` rather than returning an empty list. -/
theorem C6_counter_hybrid_raises :
    hybrid_search (fun _ _ => []) bm25TieExample "q" 0 4 60 true true 40 =
      Except.error "top_k must be > 0" ∧
    ∀ l : List ChunkHit,
      (Except.error "top_k must be > 0" : Except String (List ChunkHit)) ≠ Except.ok l :=
  ⟨by simp [hybrid_search], fun l h => Except.noConfusion h⟩

theorem alLookup_alUpdate_self {κ β : Type} [DecidableEq κ] (k : κ) (f : Option β → β) :
    ∀ d : List (κ × β), alLookup k (alUpdate k f d) = some (f (alLookup k d)) := by
  intro d
  induction d with
  | nil => simp [alLookup, alUpdate]
  | cons kv t ih =>
    rcases kv with ⟨k0, v⟩
    by_cases hk : k0 = k
    · subst hk
      simp [alLookup, alUpdate]
    · simp [alLookup, alUpdate, hk, ih]

theorem alLookup_alUpdate_other {κ β : Type} [DecidableEq κ] {k k' : κ}
    (hne : k' ≠ k) (f : Option β → β) :
    ∀ d : List (κ × β), alLookup k' (alUpdate k f d) = alLookup k' d := by
  intro d
  induction d with
  | nil => simp [alLookup, alUpdate, Ne.symm hne]
  | cons kv t ih =>
    rcases kv with ⟨k0, v⟩
    by_cases hk : k0 = k
    · subst hk
      simp [alLookup, alUpdate, Ne.symm hne]
    · simp only [alUpdate, if_neg hk, alLookup]
      by_cases hk' : k0 = k'
      · simp [hk']
      · simp [hk', ih]

theorem alUpdate_keys {κ β : Type} [DecidableEq κ] (k : κ) (f : Option β → β) :
    ∀ d : List (κ × β), (alUpdate k f d).map Prod.fst =
      if k ∈ d.map Prod.fst then d.map Prod.fst else d.map Prod.fst ++ [k] := by
  intro d
  induction d with
  | nil => simp [alUpdate]
  | cons kv t ih =>
    rcases kv with ⟨k0, v⟩
    by_cases hk : k0 = k
    · subst hk
      simp [alUpdate]
    · simp only [alUpdate, if_neg hk, List.map_cons]
      by_cases hmem : k ∈ t.map Prod.fst
      · rw [if_pos (by simp [hmem]), ih, if_pos hmem]
      · rw [if_neg (by simp [hmem, Ne.symm hk]), ih, if_neg hmem]
        simp

theorem alUpdate_keys_nodup {κ β : Type} [DecidableEq κ] (k : κ) (f : Option β → β)
    (d : List (κ × β)) (h : (d.map Prod.fst).Nodup) :
    ((alUpdate k f d).map Prod.fst).Nodup := by
  rw [alUpdate_keys]
  by_cases hmem : k ∈ d.map Prod.fst
  · rw [if_pos hmem]; exact h
  · rw [if_neg hmem]
    refine h.append (List.nodup_singleton k) ?_
    intro a ha hb
    simp at hb
    subst hb
    exact hmem ha

theorem alUpdate_keys_mem {κ β : Type} [DecidableEq κ] (k k' : κ) (f : Option β → β)
    (d : List (κ × β)) :
    (k' ∈ (alUpdate k f d).map Prod.fst) ↔ k' ∈ d.map Prod.fst ∨ k' = k := by
  rw [alUpdate_keys]
  by_cases hmem : k ∈ d.map Prod.fst
  · rw [if_pos hmem]
    constructor
    · exact Or.inl
    · rintro (h | h)
      · exact h
      · exact h ▸ hmem
  · rw [if_neg hmem]
    simp

theorem alLookup_isSome_iff {κ β : Type} [DecidableEq κ] (k : κ) :
    ∀ d : List (κ × β), (alLookup k d).isSome ↔ k ∈ d.map Prod.fst := by
  intro d
  induction d with
  | nil => simp [alLookup]
  | cons kv t ih =>
    rcases kv with ⟨k0, v⟩
    by_cases hk : k0 = k
    · subst hk
      simp [alLookup]
    · simp [alLookup, hk, ih, Ne.symm hk]

theorem rrfAccum_eq_foldPairs (rankings : List (List ChunkHit)) (k0 : ℤ) :
    rrfAccum rankings k0 = (rrfPairs rankings).foldl (rrfStepPair k0) ([], []) := by
  unfold rrfAccum rrfPairs
  generalize ([], []) = init
  induction rankings generalizing init with
  | nil => simp
  | cons r rest ih =>
    simp only [List.foldl_cons, List.flatMap_cons, List.foldl_append]
    exact ih _

theorem rrfContrib_cons (k0 : ℤ) (p : Nat × ChunkHit) (t : List (Nat × ChunkHit)) (cid : String) :
    rrfContrib k0 (p :: t) cid =
      (if p.2.chunk_id = cid then 1 / ((k0 : ℚ) + (p.1 : ℚ)) else 0) + rrfContrib k0 t cid := by
  by_cases hp : p.2.chunk_id = cid
  · simp [rrfContrib, List.filter_cons, hp]
  · simp [rrfContrib, List.filter_cons, hp]

theorem rrfFold_scores_lookup (k0 : ℤ) :
    ∀ (l : List (Nat × ChunkHit)) (st : List (String × ℚ) × List (String × ChunkHit))
      (cid : String),
      alLookup cid ((l.foldl (rrfStepPair k0) st).1) =
        match alLookup cid st.1 with
        | some v => some (v + rrfContrib k0 l cid)
        | none =>
          if cid ∈ l.map (fun p => p.2.chunk_id) then some (rrfContrib k0 l cid) else none := by
  intro l
  induction l with
  | nil =>
    intro st cid
    cases h : alLookup cid st.1 <;> simp [h, rrfContrib]
  | cons p t ih =>
    intro st cid
    rw [List.foldl_cons, ih]
    by_cases hc : p.2.chunk_id = cid
    · have hupd : alLookup cid (rrfStepPair k0 st p).1 =
          some ((alLookup cid st.1).getD 0 + 1 / ((k0 : ℚ) + (p.1 : ℚ))) := by
        simp only [rrfStepPair]
        rw [hc, alLookup_alUpdate_self]
      rw [hupd]
      cases h : alLookup cid st.1 with
      | none =>
        simp only [h, Option.getD_none]
        rw [if_pos (by simp [hc])]
        rw [rrfContrib_cons, if_pos hc]
        ring_nf
      | some v =>
        simp only [h, Option.getD_some]
        rw [rrfContrib_cons, if_pos hc]
        congr 1
        ring
    · have hupd : alLookup cid (rrfStepPair k0 st p).1 = alLookup cid st.1 := by
        simp only [rrfStepPair]
        exact alLookup_alUpdate_other (fun he => hc he.symm) _ _
      rw [hupd]
      cases h : alLookup cid st.1 with
      | none =>
        simp only [h]
        rw [rrfContrib_cons, if_neg hc]
        have hmm : (cid ∈ (p :: t).map (fun p => p.2.chunk_id)) ↔
            cid ∈ t.map (fun p => p.2.chunk_id) := by
          simp only [List.map_cons, List.mem_cons]
          constructor
          · rintro (h | h)
            · exact absurd h.symm hc
            · exact h
          · exact Or.inr
        by_cases hmem : cid ∈ t.map (fun p => p.2.chunk_id)
        · rw [if_pos hmem, if_pos (hmm.mpr hmem)]
          norm_num
        · rw [if_neg hmem, if_neg (fun hx => hmem (hmm.mp hx))]
      | some v =>
        simp only [h]
        rw [rrfContrib_cons, if_neg hc]
        norm_num

theorem rrfFold_scores_keys (k0 : ℤ) :
    ∀ (l : List (Nat × ChunkHit)) (st : List (String × ℚ) × List (String × ChunkHit)),
      (((l.foldl (rrfStepPair k0) st).1.map Prod.fst).Nodup ↔
          (st.1.map Prod.fst).Nodup) ∧
      (∀ cid, cid ∈ (l.foldl (rrfStepPair k0) st).1.map Prod.fst ↔
        cid ∈ st.1.map Prod.fst ∨ cid ∈ l.map (fun p => p.2.chunk_id)) := by
  intro l
  induction l with
  | nil => intro st; simp
  | cons p t ih =>
    intro st
    rw [List.foldl_cons]
    rcases ih (rrfStepPair k0 st p) with ⟨ihn, ihm⟩
    constructor
    · rw [ihn]
      constructor
      · intro h
        -- keys of the updated dict are nodup iff original: derive original from updated
        by_contra hnd
        have : ¬ ((rrfStepPair k0 st p).1.map Prod.fst).Nodup := by
          intro hx
          -- updated keys are original keys possibly with one appended
          rw [show (rrfStepPair k0 st p).1 = alUpdate p.2.chunk_id
              (fun o => o.getD 0 + 1 / ((k0 : ℚ) + (p.1 : ℚ))) st.1 from rfl,
            alUpdate_keys] at hx
          by_cases hmem : p.2.chunk_id ∈ st.1.map Prod.fst
          · rw [if_pos hmem] at hx
            exact hnd hx
          · rw [if_neg hmem] at hx
            exact hnd (List.Nodup.of_append_left hx)
        exact this h
      · intro h
        rw [show (rrfStepPair k0 st p).1 = alUpdate p.2.chunk_id
            (fun o => o.getD 0 + 1 / ((k0 : ℚ) + (p.1 : ℚ))) st.1 from rfl]
        exact alUpdate_keys_nodup _ _ _ h
    · intro cid
      rw [ihm cid]
      rw [show (rrfStepPair k0 st p).1 = alUpdate p.2.chunk_id
          (fun o => o.getD 0 + 1 / ((k0 : ℚ) + (p.1 : ℚ))) st.1 from rfl,
        alUpdate_keys_mem]
      simp only [List.map_cons, List.mem_cons]
      constructor
      · rintro ((h | h) | h)
        · exact Or.inl h
        · exact Or.inr (Or.inl h)
        · exact Or.inr (Or.inr h)
      · rintro (h | h | h)
        · exact Or.inl (Or.inl h)
        · exact Or.inl (Or.inr h)
        · exact Or.inr h

theorem rrfFold_reps_isSome (k0 : ℤ) :
    ∀ (l : List (Nat × ChunkHit)) (st : List (String × ℚ) × List (String × ChunkHit))
      (cid : String),
      (alLookup cid ((l.foldl (rrfStepPair k0) st).2)).isSome ↔
        (alLookup cid st.2).isSome ∨ cid ∈ l.map (fun p => p.2.chunk_id) := by
  intro l
  induction l with
  | nil => intro st cid; simp
  | cons p t ih =>
    intro st cid
    rw [List.foldl_cons, ih]
    have hupd : (rrfStepPair k0 st p).2 = alUpdate p.2.chunk_id
        (fun o => match o with
          | none => p.2
          | some prev => if tieBreakKeyH p.2 < tieBreakKeyH prev then p.2 else prev) st.2 := rfl
    rw [alLookup_isSome_iff, hupd, alUpdate_keys_mem, ← alLookup_isSome_iff]
    simp only [List.map_cons, List.mem_cons]
    constructor
    · rintro ((h | h) | h)
      · exact Or.inl h
      · exact Or.inr (Or.inl h)
      · exact Or.inr (Or.inr h)
    · rintro (h | h | h)
      · exact Or.inl (Or.inl h)
      · exact Or.inl (Or.inr h)
      · exact Or.inr h

theorem rrfFold_reps_lookup (k0 : ℤ) :
    ∀ (l : List (Nat × ChunkHit)) (st : List (String × ℚ) × List (String × ChunkHit))
      (cid : String) (rep : ChunkHit),
      alLookup cid ((l.foldl (rrfStepPair k0) st).2) = some rep →
      (alLookup cid st.2 = some rep ∨
        (∃ p ∈ l, (p : Nat × ChunkHit).2 = rep ∧ rep.chunk_id = cid)) ∧
      (∀ p ∈ l, (p : Nat × ChunkHit).2.chunk_id = cid →
        tieBreakKeyH rep ≤ tieBreakKeyH p.2) ∧
      (∀ r0, alLookup cid st.2 = some r0 → tieBreakKeyH rep ≤ tieBreakKeyH r0) := by
  intro l
  induction l with
  | nil =>
    intro st cid rep h
    simp only [List.foldl_nil] at h
    refine ⟨Or.inl h, by simp, ?_⟩
    intro r0 h0
    rw [h] at h0
    cases h0
    exact le_refl _
  | cons p t ih =>
    intro st cid rep h
    rw [List.foldl_cons] at h
    rcases ih (rrfStepPair k0 st p) cid rep h with ⟨hprov, hmin, hinit⟩
    have hupd : (rrfStepPair k0 st p).2 = alUpdate p.2.chunk_id
        (fun o => match o with
          | none => p.2
          | some prev => if tieBreakKeyH p.2 < tieBreakKeyH prev then p.2 else prev) st.2 := rfl
    by_cases hc : p.2.chunk_id = cid
    · have hlook : alLookup cid (rrfStepPair k0 st p).2 =
          some (match alLookup cid st.2 with
            | none => p.2
            | some prev => if tieBreakKeyH p.2 < tieBreakKeyH prev then p.2 else prev) := by
        rw [hupd, ← hc, alLookup_alUpdate_self, hc]
      set v1 := (match alLookup cid st.2 with
        | none => p.2
        | some prev => if tieBreakKeyH p.2 < tieBreakKeyH prev then p.2 else prev) with hv1
      have hv1p : tieBreakKeyH v1 ≤ tieBreakKeyH p.2 := by
        rw [hv1]
        cases hold : alLookup cid st.2 with
        | none => exact le_refl _
        | some prev =>
          simp only
          by_cases hlt : tieBreakKeyH p.2 < tieBreakKeyH prev
          · rw [if_pos hlt]
          · rw [if_neg hlt]
            exact le_of_not_lt hlt
      have hv1init : ∀ r0, alLookup cid st.2 = some r0 → tieBreakKeyH v1 ≤ tieBreakKeyH r0 := by
        intro r0 h0
        rw [hv1, h0]
        simp only
        by_cases hlt : tieBreakKeyH p.2 < tieBreakKeyH r0
        · rw [if_pos hlt]
          exact le_of_lt hlt
        · rw [if_neg hlt]
      have hv1prov : v1 = p.2 ∨ alLookup cid st.2 = some v1 := by
        rw [hv1]
        cases hold : alLookup cid st.2 with
        | none => exact Or.inl rfl
        | some prev =>
          simp only
          by_cases hlt : tieBreakKeyH p.2 < tieBreakKeyH prev
          · rw [if_pos hlt]; exact Or.inl rfl
          · rw [if_neg hlt]; exact Or.inr rfl
      refine ⟨?_, ?_, ?_⟩
      · rcases hprov with hst' | ⟨q, hq, hq2, hq3⟩
        · rw [hlook] at hst'
          injection hst' with hrep
          rcases hv1prov with hv | hv
          · refine Or.inr ⟨p, by simp, hv.symm.trans hrep, ?_⟩
            rw [← hrep, hv]
            exact hc
          · rw [hrep] at hv
            exact Or.inl hv
        · exact Or.inr ⟨q, by simp [hq], hq2, hq3⟩
      · intro q hq hqc
        rcases List.mem_cons.mp hq with hq | hq
        · subst hq
          exact le_trans (hinit v1 hlook) hv1p
        · exact hmin q hq hqc
      · intro r0 h0
        exact le_trans (hinit v1 hlook) (hv1init r0 h0)
    · have hlook : alLookup cid (rrfStepPair k0 st p).2 = alLookup cid st.2 := by
        rw [hupd]
        exact alLookup_alUpdate_other (fun he => hc he.symm) _ _
      refine ⟨?_, ?_, ?_⟩
      · rcases hprov with hst' | ⟨q, hq, hq2, hq3⟩
        · rw [hlook] at hst'
          exact Or.inl hst'
        · exact Or.inr ⟨q, by simp [hq], hq2, hq3⟩
      · intro q hq hqc
        rcases List.mem_cons.mp hq with hq | hq
        · subst hq
          exact absurd hqc hc
        · exact hmin q hq hqc
      · intro r0 h0
        exact hinit r0 (by rw [hlook]; exact h0)

theorem sorted_key_perm_eq {α κ : Type} [LinearOrder κ] {K : α → κ} :
    ∀ {l1 l2 : List α}, List.Perm l1 l2 →
      l1.Pairwise (fun a b => K a ≤ K b) → l2.Pairwise (fun a b => K a ≤ K b) →
      (∀ a ∈ l1, ∀ b ∈ l1, K a = K b → a = b) → l1 = l2 := by
  intro l1
  induction l1 with
  | nil =>
    intro l2 hp _ _ _
    exact (hp.symm.eq_nil).symm
  | cons a t ih =>
    intro l2 hp hs1 hs2 hinj
    have ha2 : a ∈ l2 := hp.mem_iff.mp (by simp)
    cases l2 with
    | nil => cases ha2
    | cons b t2 =>
      by_cases hab : a = b
      · subst hab
        have ht : List.Perm t t2 := hp.cons_inv
        have htl := ih ht (List.Pairwise.of_cons hs1) (List.Pairwise.of_cons hs2)
          (fun x hx y hy => hinj x (List.mem_cons_of_mem a hx) y (List.mem_cons_of_mem a hy))
        rw [htl]
      · exfalso
        have hat2 : a ∈ t2 := by
          rcases List.mem_cons.mp ha2 with h | h
          · exact absurd h hab
          · exact h
        have hbt : b ∈ t := by
          have hb1 : b ∈ a :: t := hp.mem_iff.mpr (by simp)
          rcases List.mem_cons.mp hb1 with h | h
          · exact absurd h.symm hab
          · exact h
        have h1 : K a ≤ K b := (List.pairwise_cons.mp hs1).1 b hbt
        have h2 : K b ≤ K a := (List.pairwise_cons.mp hs2).1 a hat2
        exact hab (hinj a (by simp) b (by simp [hbt]) (le_antisymm h1 h2))

theorem orderedInsert_congr {α κ : Type} [LinearOrder κ] {K1 K2 : α → κ} (a : α)
    (ha : K1 a = K2 a) :
    ∀ s : List α, (∀ x ∈ s, K1 x = K2 x) →
      List.orderedInsert (fun x y => K1 x ≤ K1 y) a s =
        List.orderedInsert (fun x y => K2 x ≤ K2 y) a s := by
  intro s
  induction s with
  | nil => intro _; rfl
  | cons b t ih =>
    intro hs
    have hb : K1 b = K2 b := hs b (by simp)
    simp only [List.orderedInsert]
    by_cases h : K2 a ≤ K2 b
    · rw [if_pos (by rw [ha, hb]; exact h), if_pos h]
    · rw [if_neg (by rw [ha, hb]; exact h), if_neg h,
        ih (fun x hx => hs x (by simp [hx]))]

theorem sortByKey_congr {α κ : Type} [LinearOrder κ] {K1 K2 : α → κ} :
    ∀ l : List α, (∀ x ∈ l, K1 x = K2 x) → sortByKey K1 l = sortByKey K2 l := by
  intro l
  induction l with
  | nil => intro _; rfl
  | cons a t ih =>
    intro hl
    show List.orderedInsert _ a (List.insertionSort _ t) = _
    have hmemsort : ∀ x ∈ List.insertionSort (fun x y => K1 x ≤ K1 y) t, K1 x = K2 x :=
      fun x hx => hl x (by
        have := (List.perm_insertionSort (fun x y => K1 x ≤ K1 y) t).mem_iff.mp hx
        simp [this])
    rw [orderedInsert_congr a (hl a (by simp)) _ hmemsort,
      show List.insertionSort (fun x y => K1 x ≤ K1 y) t = sortByKey K2 t from ih
        (fun x hx => hl x (by simp [hx]))]
    rfl

theorem sortByKey_eq_of_perm {α κ : Type} [LinearOrder κ] {K : α → κ} {l1 l2 : List α}
    (hp : List.Perm l1 l2) (hinj : ∀ a ∈ l1, ∀ b ∈ l1, K a = K b → a = b) :
    sortByKey K l1 = sortByKey K l2 := by
  refine sorted_key_perm_eq ?_ (sortByKey_pairwise K l1) (sortByKey_pairwise K l2) ?_
  · exact (sortByKey_perm K l1).trans (hp.trans (sortByKey_perm K l2).symm)
  · intro a hx y hy
    exact hinj a ((sortByKey_perm K l1).mem_iff.mp hx) y ((sortByKey_perm K l1).mem_iff.mp hy)

theorem toLex_pair_inj {α β : Type} {a b : α × β} (h : toLex a = toLex b) : a = b :=
  congrArg ofLex h

theorem rrfCore_keys (rankings : List (List ChunkHit)) (k0 : ℤ) :
    ((rrfAccum rankings k0).1.map Prod.fst).Nodup ∧
    ∀ cid, (cid ∈ (rrfAccum rankings k0).1.map Prod.fst ↔
      cid ∈ (rrfPairs rankings).map (fun p => p.2.chunk_id)) := by
  rw [rrfAccum_eq_foldPairs]
  rcases rrfFold_scores_keys k0 (rrfPairs rankings) ([], []) with ⟨hn, hm⟩
  refine ⟨hn.mpr (by simp), ?_⟩
  intro cid
  rw [hm cid]
  simp

theorem rrfCore_score (rankings : List (List ChunkHit)) (k0 : ℤ) :
    ∀ cid ∈ (rrfAccum rankings k0).1.map Prod.fst,
      alLookup cid (rrfAccum rankings k0).1 = some (rrfSpecScore rankings k0 cid) := by
  intro cid hcid
  have hmem : cid ∈ (rrfPairs rankings).map (fun p => p.2.chunk_id) :=
    ((rrfCore_keys rankings k0).2 cid).mp hcid
  rw [rrfAccum_eq_foldPairs, rrfFold_scores_lookup k0 (rrfPairs rankings) ([], []) cid]
  show (if cid ∈ (rrfPairs rankings).map (fun p => p.2.chunk_id)
    then some (rrfContrib k0 (rrfPairs rankings) cid) else none) = _
  rw [if_pos hmem]
  rfl

theorem rrfCore_rep (rankings : List (List ChunkHit)) (k0 : ℤ) :
    ∀ cid ∈ (rrfAccum rankings k0).1.map Prod.fst,
      ∃ rep, alLookup cid (rrfAccum rankings k0).2 = some rep ∧
        rep.chunk_id = cid ∧
        (∃ p ∈ rrfPairs rankings, (p : Nat × ChunkHit).2 = rep) ∧
        (∀ p ∈ rrfPairs rankings, (p : Nat × ChunkHit).2.chunk_id = cid →
          tieBreakKeyH rep ≤ tieBreakKeyH p.2) := by
  intro cid hcid
  have hmem : cid ∈ (rrfPairs rankings).map (fun p => p.2.chunk_id) :=
    ((rrfCore_keys rankings k0).2 cid).mp hcid
  have hsome : (alLookup cid (rrfAccum rankings k0).2).isSome := by
    rw [rrfAccum_eq_foldPairs, rrfFold_reps_isSome]
    exact Or.inr hmem
  rcases Option.isSome_iff_exists.mp hsome with ⟨rep, hrep⟩
  have hfacts := rrfFold_reps_lookup k0 (rrfPairs rankings) ([], []) cid rep
    (by rw [← rrfAccum_eq_foldPairs]; exact hrep)
  rcases hfacts with ⟨hprov, hmin, -⟩
  rcases hprov with habs | ⟨p, hp, hpe, hpc⟩
  · simp [alLookup] at habs
  · exact ⟨rep, hrep, hpc, ⟨p, hp, hpe⟩, hmin⟩

theorem rrfCore_mem (rankings : List (List ChunkHit)) (tk : Nat) (k0 : ℤ) :
    ∀ h ∈ rrfFuseCore rankings tk k0,
      ∃ cid rep, cid ∈ (rrfAccum rankings k0).1.map Prod.fst ∧
        alLookup cid (rrfAccum rankings k0).2 = some rep ∧
        rep.chunk_id = cid ∧
        h = { score := rrfSpecScore rankings k0 cid, chunk_id := rep.chunk_id,
              doc_id := rep.doc_id, start_page := rep.start_page,
              end_page := rep.end_page, text := rep.text } ∧
        (∃ p ∈ rrfPairs rankings, (p : Nat × ChunkHit).2 = rep) ∧
        (∀ p ∈ rrfPairs rankings, (p : Nat × ChunkHit).2.chunk_id = cid →
          tieBreakKeyH rep ≤ tieBreakKeyH p.2) := by
  intro h hh
  simp only [rrfFuseCore] at hh
  rcases List.mem_map.mp hh with ⟨cid, hcid_take, hbuild⟩
  have hcid : cid ∈ (rrfAccum rankings k0).1.map Prod.fst := by
    have h1 : cid ∈ sortByKey (rrfSortKey (rrfAccum rankings k0).1 (rrfAccum rankings k0).2)
        ((rrfAccum rankings k0).1.map Prod.fst) :=
      List.mem_of_mem_take hcid_take
    exact (sortByKey_perm _ _).mem_iff.mp h1
  rcases rrfCore_rep rankings k0 cid hcid with ⟨rep, hrep, hrc, hocc, hmin⟩
  have hscore := rrfCore_score rankings k0 cid hcid
  refine ⟨cid, rep, hcid, hrep, hrc, ?_, hocc, hmin⟩
  rw [← hbuild, hscore, hrep]
  simp

theorem rrfCore_pairwise (rankings : List (List ChunkHit)) (tk : Nat) (k0 : ℤ) :
    (rrfFuseCore rankings tk k0).Pairwise
      (fun a b => toLex (-a.score, tieBreakKeyH a) ≤ toLex (-b.score, tieBreakKeyH b)) := by
  simp only [rrfFuseCore]
  rw [List.pairwise_map]
  have hs := sortByKey_pairwise
    (rrfSortKey (rrfAccum rankings k0).1 (rrfAccum rankings k0).2)
    ((rrfAccum rankings k0).1.map Prod.fst)
  have ht := List.Pairwise.sublist (List.take_sublist tk _) hs
  exact ht.imp (fun hcd => hcd)

theorem rrfCore_rep_lookup_eq (rankings : List (List ChunkHit)) (k0 : ℤ) (cid : String)
    (hcid : cid ∈ (rrfAccum rankings k0).1.map Prod.fst) (rep : ChunkHit)
    (hl : alLookup cid (rrfAccum rankings k0).2 = some rep) :
    rep.chunk_id = cid ∧ (∃ p ∈ rrfPairs rankings, (p : Nat × ChunkHit).2 = rep) := by
  rcases rrfCore_rep rankings k0 cid hcid with ⟨rep0, hl0, hc0, hocc0, -⟩
  rw [hl0] at hl
  injection hl with he
  subst he
  exact ⟨hc0, hocc0⟩

theorem rrfCore_perm_invariant (rankings rankings' : List (List ChunkHit)) (tk : Nat)
    (k0 : ℤ) (hperm : List.Perm rankings' rankings) (hcons : chunkConsistent rankings) :
    rrfFuseCore rankings' tk k0 = rrfFuseCore rankings tk k0 := by
  have hpp : List.Perm (rrfPairs rankings') (rrfPairs rankings) :=
    List.Perm.flatMap_right _ hperm
  have hcontrib : ∀ cid, rrfSpecScore rankings' k0 cid = rrfSpecScore rankings k0 cid :=
    fun cid => List.Perm.sum_eq (List.Perm.map _ (List.Perm.filter _ hpp))
  rcases rrfCore_keys rankings' k0 with ⟨hn', hm'⟩
  rcases rrfCore_keys rankings k0 with ⟨hn, hm⟩
  have hkeysperm : List.Perm ((rrfAccum rankings' k0).1.map Prod.fst)
      ((rrfAccum rankings k0).1.map Prod.fst) := by
    refine (List.perm_ext_iff_of_nodup hn' hn).mpr ?_
    intro cid
    rw [hm' cid, hm cid]
    exact (List.Perm.map _ hpp).mem_iff
  have hrepfields : ∀ cid ∈ (rrfAccum rankings' k0).1.map Prod.fst,
      ∀ rep' rep : ChunkHit, alLookup cid (rrfAccum rankings' k0).2 = some rep' →
        alLookup cid (rrfAccum rankings k0).2 = some rep →
        rep'.doc_id = rep.doc_id ∧ rep'.start_page = rep.start_page ∧
        rep'.end_page = rep.end_page ∧ rep'.text = rep.text ∧
        rep'.chunk_id = rep.chunk_id := by
    intro cid hcid' rep' rep hl' hl
    rcases rrfCore_rep_lookup_eq rankings' k0 cid hcid' rep' hl' with ⟨hc', p', hp', hpe'⟩
    rcases rrfCore_rep_lookup_eq rankings k0 cid (hkeysperm.mem_iff.mp hcid') rep hl with
      ⟨hc, p, hp, hpe⟩
    have hp'2 : p' ∈ rrfPairs rankings := hpp.mem_iff.mp hp'
    have hchunks : (p' : Nat × ChunkHit).2.chunk_id = (p : Nat × ChunkHit).2.chunk_id := by
      rw [hpe', hpe, hc', hc]
    rcases hcons p' hp'2 p hp hchunks with ⟨hd, hs, he, ht⟩
    rw [hpe', hpe] at hd hs he ht
    refine ⟨hd, hs, he, ht, ?_⟩
    rw [hc', hc]
  have hkeyeq : ∀ cid ∈ (rrfAccum rankings' k0).1.map Prod.fst,
      rrfSortKey (rrfAccum rankings' k0).1 (rrfAccum rankings' k0).2 cid =
        rrfSortKey (rrfAccum rankings k0).1 (rrfAccum rankings k0).2 cid := by
    intro cid hcid'
    have hcid : cid ∈ (rrfAccum rankings k0).1.map Prod.fst := hkeysperm.mem_iff.mp hcid'
    rcases rrfCore_rep rankings' k0 cid hcid' with ⟨rep', hl', -, -, -⟩
    rcases rrfCore_rep rankings k0 cid hcid with ⟨rep, hl, -, -, -⟩
    rcases hrepfields cid hcid' rep' rep hl' hl with ⟨hd, hs, -, -, hcc⟩
    simp only [rrfSortKey, rrfCore_score rankings' k0 cid hcid',
      rrfCore_score rankings k0 cid hcid, hl', hl, Option.getD_some]
    rw [hcontrib cid, hd, hs, hcc]
  have hinj : ∀ a ∈ (rrfAccum rankings' k0).1.map Prod.fst,
      ∀ b ∈ (rrfAccum rankings' k0).1.map Prod.fst,
        rrfSortKey (rrfAccum rankings k0).1 (rrfAccum rankings k0).2 a =
          rrfSortKey (rrfAccum rankings k0).1 (rrfAccum rankings k0).2 b → a = b := by
    intro a ha b hb heq
    rcases rrfCore_rep rankings k0 a (hkeysperm.mem_iff.mp ha) with ⟨repa, hla, hca, -, -⟩
    rcases rrfCore_rep rankings k0 b (hkeysperm.mem_iff.mp hb) with ⟨repb, hlb, hcb, -, -⟩
    simp only [rrfSortKey, hla, hlb, Option.getD_some] at heq
    have h1 := toLex_pair_inj heq
    have h2 := toLex_pair_inj (congrArg Prod.snd h1)
    have h3 := toLex_pair_inj (congrArg Prod.snd h2)
    have h4 := congrArg Prod.snd h3
    simp only at h4
    rw [hca, hcb] at h4
    exact h4
  have hsort : sortByKey (rrfSortKey (rrfAccum rankings' k0).1 (rrfAccum rankings' k0).2)
        ((rrfAccum rankings' k0).1.map Prod.fst) =
      sortByKey (rrfSortKey (rrfAccum rankings k0).1 (rrfAccum rankings k0).2)
        ((rrfAccum rankings k0).1.map Prod.fst) :=
    (sortByKey_congr _ hkeyeq).trans (sortByKey_eq_of_perm hkeysperm hinj)
  simp only [rrfFuseCore]
  rw [hsort]
  refine List.map_congr_left ?_
  intro cid hcid_take
  have hcid : cid ∈ (rrfAccum rankings k0).1.map Prod.fst :=
    (sortByKey_perm _ _).mem_iff.mp (List.mem_of_mem_take hcid_take)
  have hcid' : cid ∈ (rrfAccum rankings' k0).1.map Prod.fst := hkeysperm.mem_iff.mpr hcid
  rcases rrfCore_rep rankings' k0 cid hcid' with ⟨rep', hl', -, -, -⟩
  rcases rrfCore_rep rankings k0 cid hcid with ⟨rep, hl, -, -, -⟩
  rcases hrepfields cid hcid' rep' rep hl' hl with ⟨hd, hs, he, htx, hcc⟩
  simp only [rrfCore_score rankings' k0 cid hcid', rrfCore_score rankings k0 cid hcid,
    hl', hl, Option.getD_some]
  rw [hcontrib cid, hd, hs, he, htx, hcc]

/-- Claim C5 (amended): for `top_k > 0` and `k0 > 0`, `rrf_fuse` returns
the fused list in which every hit carries the accumulated score
`Σ 1/(k0+rank)` over all its 1-based occurrences across the rankings,
its metadata comes from an occurrence whose tie-break key
`(doc_id, start_page, chunk_id)` is minimal among all occurrences of
that chunk id, the list is sorted by
`(-score, doc_id, start_page, chunk_id)` — so equal accumulated scores
are ordered by ascending `(doc_id, start_page, chunk_id)` — and is
truncated to `top_k`.  The output is invariant under permutation of the
input rankings provided hits with equal `chunk_id` agree on
`(doc_id, start_page, end_page, text)` (scores may differ); without that
proviso the first-encountered occurrence wins key ties, so permutation
invariance can fail (see the counterexample). -/
theorem C5_rrf_fuse_spec :
    ∀ (rankings : List (List ChunkHit)) (top_k k0 : ℤ),
      0 < top_k → 0 < k0 →
      rrf_fuse rankings top_k k0 = Except.ok (rrfFuseCore rankings top_k.toNat k0) ∧
      (∀ h ∈ rrfFuseCore rankings top_k.toNat k0,
        h.score = rrfSpecScore rankings k0 h.chunk_id ∧
        (∃ p ∈ rrfPairs rankings, (p : Nat × ChunkHit).2.chunk_id = h.chunk_id ∧
          h.doc_id = p.2.doc_id ∧ h.start_page = p.2.start_page ∧
          h.end_page = p.2.end_page ∧ h.text = p.2.text) ∧
        (∀ p ∈ rrfPairs rankings, (p : Nat × ChunkHit).2.chunk_id = h.chunk_id →
          tieBreakKeyH h ≤ tieBreakKeyH p.2)) ∧
      (rrfFuseCore rankings top_k.toNat k0).Pairwise
        (fun a b => toLex (-a.score, tieBreakKeyH a) ≤ toLex (-b.score, tieBreakKeyH b)) ∧
      (rrfFuseCore rankings top_k.toNat k0).Pairwise
        (fun a b => a.score = b.score → tieBreakKeyH a ≤ tieBreakKeyH b) ∧
      (rrfFuseCore rankings top_k.toNat k0).length ≤ top_k.toNat ∧
      (∀ rankings', List.Perm rankings' rankings → chunkConsistent rankings →
        rrfFuseCore rankings' top_k.toNat k0 = rrfFuseCore rankings top_k.toNat k0) := by
  intro rankings top_k k0 ht hk
  refine ⟨?_, ?_, rrfCore_pairwise rankings top_k.toNat k0, ?_, ?_, ?_⟩
  · rw [rrf_fuse, if_neg (not_le.mpr ht), if_neg (not_le.mpr hk)]
  · intro h hh
    rcases rrfCore_mem rankings top_k.toNat k0 h hh with
      ⟨cid, rep, hcid, hrep, hrc, hhe, ⟨p, hp, hpe⟩, hmin⟩
    subst hhe
    refine ⟨by rw [hrc], ⟨p, hp, ?_, ?_, ?_, ?_, ?_⟩, ?_⟩
    · rw [hpe]
    · rw [hpe]
    · rw [hpe]
    · rw [hpe]
    · rw [hpe]
    · intro q hq hqc
      exact hmin q hq (by rw [hqc]; exact hrc.symm ▸ rfl)
  · refine (rrfCore_pairwise rankings top_k.toNat k0).imp ?_
    intro a b hab hsc
    rcases (Prod.Lex.le_iff _ _).mp hab with hlt | ⟨-, hle⟩
    · exfalso
      rw [show -a.score = -b.score from by rw [hsc]] at hlt
      exact lt_irrefl _ hlt
    · exact hle
  · simp only [rrfFuseCore, List.length_map, List.length_take]
    exact min_le_left _ _
  · intro rankings' hp hc
    exact rrfCore_perm_invariant rankings rankings' top_k.toNat k0 hp hc

/-- Witness for C5 at the spec's concrete RRF-tie scenario: rankings
`[[A]]` and `[[B]]` with `A = (B_DOC, p5, chunk-b)`,
`B = (A_DOC, p5, chunk-a)`, `k0 = 60`, `top_k = 2`. -/
theorem C5_rrf_fuse_spec_witness :
    (0 : ℤ) < 2 ∧ (0 : ℤ) < 60 ∧
    chunkConsistent [[⟨1, "chunk-b", "B_DOC", 5, 5, "tb"⟩],
      [⟨1, "chunk-a", "A_DOC", 5, 5, "ta"⟩]] ∧
    (rrfFuseCore [[⟨1, "chunk-b", "B_DOC", 5, 5, "tb"⟩],
      [⟨1, "chunk-a", "A_DOC", 5, 5, "ta"⟩]] (2 : ℤ).toNat 60).length ≤ (2 : ℤ).toNat :=
  ⟨by decide, by decide, by unfold chunkConsistent; decide,
    (C5_rrf_fuse_spec [[⟨1, "chunk-b", "B_DOC", 5, 5, "tb"⟩],
      [⟨1, "chunk-a", "A_DOC", 5, 5, "ta"⟩]] 2 60 (by decide) (by decide)).2.2.2.2.1⟩

/-- Claim C5 as universally stated is false: when the same `chunk_id`
appears in two rankings with different metadata (here `end_page` 1
versus 9), the representative is the first-encountered occurrence among
key-ties, so permuting the rankings changes the output. -/
theorem C5_counter_perm_inconsistent :
    List.Perm [[(⟨1, "c", "d", 1, 9, "y"⟩ : ChunkHit)], [⟨1, "c", "d", 1, 1, "x"⟩]]
      [[(⟨1, "c", "d", 1, 1, "x"⟩ : ChunkHit)], [⟨1, "c", "d", 1, 9, "y"⟩]] ∧
    (rrfFuseCore [[⟨1, "c", "d", 1, 1, "x"⟩], [⟨1, "c", "d", 1, 9, "y"⟩]] 2 60).map
      ChunkHit.end_page = [1] ∧
    (rrfFuseCore [[⟨1, "c", "d", 1, 9, "y"⟩], [⟨1, "c", "d", 1, 1, "x"⟩]] 2 60).map
      ChunkHit.end_page = [9] ∧
    rrfFuseCore [[⟨1, "c", "d", 1, 9, "y"⟩], [⟨1, "c", "d", 1, 1, "x"⟩]] 2 60 ≠
      rrfFuseCore [[⟨1, "c", "d", 1, 1, "x"⟩], [⟨1, "c", "d", 1, 9, "y"⟩]] 2 60 := by
  have h1 : (rrfFuseCore [[⟨1, "c", "d", 1, 1, "x"⟩], [⟨1, "c", "d", 1, 9, "y"⟩]] 2 60).map
      ChunkHit.end_page = [1] := by
    simp [rrfFuseCore, rrfAccum, rrfPairs, rrfStepPair, alUpdate, alLookup, rrfSortKey,
      sortByKey, List.insertionSort, tieBreakKeyH, List.enumFrom, lt_irrefl]
  have h2 : (rrfFuseCore [[⟨1, "c", "d", 1, 9, "y"⟩], [⟨1, "c", "d", 1, 1, "x"⟩]] 2 60).map
      ChunkHit.end_page = [9] := by
    simp [rrfFuseCore, rrfAccum, rrfPairs, rrfStepPair, alUpdate, alLookup, rrfSortKey,
      sortByKey, List.insertionSort, tieBreakKeyH, List.enumFrom, lt_irrefl]
  refine ⟨List.Perm.swap _ _ _, h1, h2, ?_⟩
  intro he
  rw [he, h1] at h2
  cases h2

/-- A successful association-list lookup exhibits a member pair. -/
theorem alLookup_mem {κ β : Type} [DecidableEq κ] (k : κ) (v : β) :
    ∀ d : List (κ × β), alLookup k d = some v → (k, v) ∈ d := by
  intro d
  induction d with
  | nil => intro h; simp [alLookup] at h
  | cons kv t ih =>
    rcases kv with ⟨k0, v0⟩
    intro h
    by_cases hk : k0 = k
    · subst hk
      simp [alLookup] at h
      subst h
      exact List.mem_cons_self _ _
    · simp [alLookup, hk] at h
      exact List.mem_cons_of_mem _ (ih h)

/-- `validate_answer` accepts the canonical refusal result. -/
theorem validate_refusal_ok (rc : Bool) :
    validate_answer ⟨REFUSAL_TEXT, [], none⟩ rc true = Except.ok () := by
  have hr : AnswerResult.is_refusal ⟨REFUSAL_TEXT, [], none⟩ = true := by decide
  simp [validate_answer, checkCitationPages, hr]

/-- All rejection branches of `enforce_inline_citations` return the
canonical refusal. -/
theorem refuseValidated_ok (s : AskSettings) :
    refuseValidated s = Except.ok ⟨REFUSAL_TEXT, [], none⟩ := by
  simp [refuseValidated, validate_refusal_ok]

/-- The canonical refusal satisfies the citation contract. -/
theorem refusal_citedInvariant : citedInvariant ⟨REFUSAL_TEXT, [], none⟩ := by
  constructor
  · intro _; rfl
  · intro hne; exact absurd rfl hne

/-- Keys assigned by `buildContextCitations` agree with the stored
citation's `key` field. -/
theorem buildContextCitations_keys (ev : List ChunkHit) :
    ∀ kc ∈ buildContextCitations ev, (Prod.snd kc).key = kc.1 := by
  intro kc hkc
  simp only [buildContextCitations, List.mem_map] at hkc
  rcases hkc with ⟨p, _, rfl⟩
  rfl

/-- Looking up a list of keys that are all present in a key-consistent
map returns citations whose keys are exactly that list. -/
theorem filterMap_lookup_keys {km : List (String × Citation)}
    (hkm : ∀ kc ∈ km, (Prod.snd kc).key = kc.1) :
    ∀ l : List String, (∀ k ∈ l, (alLookup k km).isSome) →
      (l.filterMap (fun k => alLookup k km)).map (fun c => c.key) = l := by
  intro l
  induction l with
  | nil => intro _; rfl
  | cons k t ih =>
    intro hall
    have hk := hall k (List.mem_cons_self k t)
    rcases Option.isSome_iff_exists.mp hk with ⟨c, hc⟩
    have hkey : c.key = k := hkm (k, c) (alLookup_mem k c km hc)
    simp [List.filterMap_cons, hc, hkey,
      ih (fun x hx => hall x (List.mem_cons_of_mem _ hx))]

/-- Every `Except.ok` result of `enforce_inline_citations` over a
key-consistent map satisfies the citation contract. -/
theorem enforce_citedInvariant {s : AskSettings} {t : String}
    {km : List (String × Citation)} {r : AnswerResult}
    (hkm : ∀ kc ∈ km, (Prod.snd kc).key = kc.1)
    (h : enforce_inline_citations s t km = Except.ok r) : citedInvariant r := by
  simp only [enforce_inline_citations] at h
  split at h
  · rw [refuseValidated_ok] at h
    injection h with h2
    exact h2 ▸ refusal_citedInvariant
  next h1 =>
    split at h
    · rw [refuseValidated_ok] at h
      injection h with h2
      exact h2 ▸ refusal_citedInvariant
    next h2 =>
      split at h
      · rw [refuseValidated_ok] at h
        injection h with h3
        exact h3 ▸ refusal_citedInvariant
      next h3 =>
        split at h
        · rw [refuseValidated_ok] at h
          injection h with h4
          exact h4 ▸ refusal_citedInvariant
        next h4 =>
          split at h
          · simp at h
          next u hv =>
            injection h with h5
            subst h5
            -- accept branch: assemble the contract
            have hne : pyStrip t ≠ REFUSAL_TEXT := by
              intro he
              exact h1 (Or.inr (Or.inr (by rw [he])))
            have husedne : extractInlineCitationKeys (pyStrip t) ≠ [] := by
              intro he
              exact h2 (List.isEmpty_iff.mpr he)
            have hsome : ∀ k ∈ extractInlineCitationKeys (pyStrip t),
                (alLookup k km).isSome = true := by
              intro k hk
              have hfe : (extractInlineCitationKeys (pyStrip t)).filter
                  (fun k => !(alLookup k km).isSome) = [] :=
                List.isEmpty_iff.mp (not_not.mp h3)
              have hthis := List.filter_eq_nil_iff.mp hfe k hk
              simp only [Bool.not_eq_true', Bool.not_eq_false] at hthis
              exact hthis
            have hperm := sortByKey_perm keySuffix (extractInlineCitationKeys (pyStrip t))
            have hsomeS : ∀ k ∈ sortByKey keySuffix (extractInlineCitationKeys (pyStrip t)),
                (alLookup k km).isSome = true := by
              intro k hk
              exact hsome k (hperm.mem_iff.mp hk)
            have hkeys := filterMap_lookup_keys hkm
              (sortByKey keySuffix (extractInlineCitationKeys (pyStrip t))) hsomeS
            constructor
            · intro he; exact absurd he hne
            · intro _
              refine ⟨?_, ?_, ?_, ?_, ?_⟩
              · intro he
                have he2 : List.filterMap (fun k => alLookup k km)
                    (sortByKey keySuffix (extractInlineCitationKeys (pyStrip t))) = [] := he
                rw [he2] at hkeys
                simp only [List.map_nil] at hkeys
                rw [← hkeys] at hperm
                exact husedne (List.Perm.eq_nil hperm.symm)
              · intro c hc
                rcases List.mem_filterMap.mp hc with ⟨k, hkmem, hkl⟩
                have hkey : c.key = k := hkm (k, c) (alLookup_mem k c km hkl)
                rw [hkey]
                exact hperm.mem_iff.mp hkmem
              · intro se hse
                intro he
                apply h4
                rw [List.any_eq_true]
                exact ⟨se, hse, by simp [he]⟩
              · intro k hk
                have hkS : k ∈ sortByKey keySuffix (extractInlineCitationKeys (pyStrip t)) :=
                  hperm.mem_iff.mpr hk
                rcases Option.isSome_iff_exists.mp (hsomeS k hkS) with ⟨c, hc⟩
                refine ⟨c, List.mem_filterMap.mpr ⟨k, hkS, hc⟩, ?_⟩
                exact hkm (k, c) (alLookup_mem k c km hc)
              · have hpw := sortByKey_pairwise keySuffix
                  (extractInlineCitationKeys (pyStrip t))
                rw [← hkeys] at hpw
                have hpw2 := List.pairwise_map.mp hpw
                exact hpw2

/-- The algorithm-fallback stage preserves the citation contract. -/
theorem bcaAlgStage_citedInvariant {s : AskSettings} {q : String} {ev : List ChunkHit}
    {km : List (String × Citation)} {result : AnswerResult}
    {algFb : String → List ChunkHit → List (String × Citation) → Option String}
    {r : AnswerResult}
    (hkm : ∀ kc ∈ km, (Prod.snd kc).key = kc.1)
    (hres : citedInvariant result)
    (h : bcaAlgStage s q ev km result algFb = Except.ok r) : citedInvariant r := by
  unfold bcaAlgStage at h
  split at h
  · split at h
    next fb hfb =>
      split at h
      · injection h with h2
        exact h2 ▸ hres
      · split at h
        next e hE => simp at h
        next result2 hE =>
          split at h
          · injection h with h2
            exact h2 ▸ enforce_citedInvariant hkm hE
          · injection h with h2
            exact h2 ▸ hres
    next hfb =>
      injection h with h2
      exact h2 ▸ hres
  · injection h with h2
    exact h2 ▸ hres

/-- The comparison-fallback stage preserves the citation contract. -/
theorem bcaCmpStage_citedInvariant {s : AskSettings} {q : String} {hits : List ChunkHit}
    {result : AnswerResult}
    {cmpFb : String → List ChunkHit → Option (String × List ChunkHit)}
    {r : AnswerResult}
    (hres : citedInvariant result)
    (h : bcaCmpStage s q hits result cmpFb = Except.ok r) : citedInvariant r := by
  unfold bcaCmpStage at h
  split at h
  · split at h
    next fbPair hfb =>
      split at h
      next e hE => simp at h
      next result3 hE =>
        split at h
        · injection h with h2
          exact h2 ▸ enforce_citedInvariant (buildContextCitations_keys _) hE
        · injection h with h2
          exact h2 ▸ hres
    next hfb =>
      injection h with h2
      exact h2 ▸ hres
  · injection h with h2
    exact h2 ▸ hres

/-- Claim C1: every answer `build_cited_answer` returns — through the
direct path or either deterministic fallback — satisfies the citation
contract: a canonical refusal has an empty citation list, and a
non-refusal has a non-empty citation list whose keys all occur as inline
markers in the answer, whose sentences each contain at least one marker,
whose markers each resolve to a returned citation (hence to an assigned
key), and whose citations are sorted by ascending numeric key suffix. -/
theorem C1_build_cited_answer_invariant (s : AskSettings) (store : ChunkStoreMaps)
    (question : String) (hits : List ChunkHit) (gen : String → List ChunkHit → String)
    (algFb : String → List ChunkHit → List (String × Citation) → Option String)
    (cmpFb : String → List ChunkHit → Option (String × List ChunkHit))
    (r : AnswerResult)
    (h : build_cited_answer s store question hits gen algFb cmpFb = Except.ok r) :
    citedInvariant r := by
  simp only [build_cited_answer] at h
  split at h
  · split at h
    next e hE =>
      rw [validate_refusal_ok] at hE
      exact absurd hE (by simp)
    next u hE =>
      injection h with h2
      exact h2 ▸ refusal_citedInvariant
  · split at h
    next e hE => simp at h
    next result hE =>
      have hres := enforce_citedInvariant (buildContextCitations_keys _) hE
      split at h
      next e hE2 => simp at h
      next resultB hE2 =>
        have hresB := bcaAlgStage_citedInvariant (buildContextCitations_keys _) hres hE2
        exact bcaCmpStage_citedInvariant hresB h

/-- Witness for C1 at concrete inputs: with `min_evidence_hits = 1` and
no hits, `build_cited_answer` returns the canonical refusal, to which
the theorem applies. -/
theorem C1_build_cited_answer_invariant_witness :
    build_cited_answer c1s c1store "q" [] (fun _ _ => "a") (fun _ _ _ => none)
      (fun _ _ => none) = Except.ok ⟨REFUSAL_TEXT, [], none⟩ ∧
    citedInvariant ⟨REFUSAL_TEXT, [], none⟩ := by
  have hb : build_cited_answer c1s c1store "q" [] (fun _ _ => "a") (fun _ _ _ => none)
      (fun _ _ => none) = Except.ok ⟨REFUSAL_TEXT, [], none⟩ := by rfl
  exact ⟨hb, C1_build_cited_answer_invariant c1s c1store "q" []
    (fun _ _ => "a") (fun _ _ _ => none) (fun _ _ => none) ⟨REFUSAL_TEXT, [], none⟩ hb⟩

/-- Claim C3: whenever the evidence accepted by `select_evidence` has
fewer than `min_evidence_hits` chunks, `build_cited_answer` returns the
canonical refusal with empty citations for every generator and every
fallback — in particular the generator is never consulted. -/
theorem C3_insufficient_evidence_refuses (s : AskSettings) (store : ChunkStoreMaps)
    (question : String) (hits : List ChunkHit)
    (h : (select_evidence s store hits).length < s.askMinEvidenceHits) :
    ∀ (gen : String → List ChunkHit → String)
      (algFb : String → List ChunkHit → List (String × Citation) → Option String)
      (cmpFb : String → List ChunkHit → Option (String × List ChunkHit)),
      build_cited_answer s store question hits gen algFb cmpFb
        = Except.ok ⟨REFUSAL_TEXT, [], none⟩ := by
  intro gen algFb cmpFb
  simp only [build_cited_answer]
  rw [if_pos h, validate_refusal_ok]

/-- Witness for C3: a single-chunk evidence set with
`min_evidence_hits = 2` yields the canonical refusal. -/
theorem C3_insufficient_evidence_refuses_witness :
    (select_evidence c3s c1store [c3hit]).length < c3s.askMinEvidenceHits ∧
    build_cited_answer c3s c1store "q" [c3hit] (fun _ _ => "unused") (fun _ _ _ => none)
      (fun _ _ => none) = Except.ok ⟨REFUSAL_TEXT, [], none⟩ :=
  ⟨by decide,
    C3_insufficient_evidence_refuses c3s c1store "q" [c3hit] (by decide) _ _ _⟩

/-- `_heuristic_route` only ever plans `compare`, `retrieve` or
`resolve_definition`. -/
theorem heuristicRoute_action (cT : String → Option (String × String)) (q : String) :
    (heuristicRoute cT q).action = "compare" ∨ (heuristicRoute cT q).action = "retrieve" ∨
      (heuristicRoute cT q).action = "resolve_definition" := by
  simp only [heuristicRoute]
  split
  all_goals try split
  all_goals try split
  all_goals simp

/-- Claim C4 (amended): with `max_tool_calls = 1`, `min_evidence_hits ≥ 2`,
`max_steps ≥ 4`, `max_rounds ≥ 1` and every retrieval tool returning
exactly one chunk, the agent run ends after
route → retrieve → assess → verify_or_refuse with `tool_calls = 1`,
`stop_reason = refusal_reason = "tool_budget_exhausted"`, empty
citations and the generic agent refusal message — which is not the
canonical refusal `REFUSAL_TEXT`.  The final state does not depend on
the answer adapter `callRag`, so the generator is never invoked. -/
theorem C4_tool_budget_refusal (b : AgentBudgets) (tools : LCTools)
    (anchorsOf : String → List String) (cT : String → Option (String × String))
    (refineB : LCState → String × String)
    (callRag : String → List ChunkHit → String × List LCCitation)
    (question : String) (e : ChunkHit)
    (hb1 : b.maxToolCalls = 1) (hb2 : 2 ≤ b.minEvidenceHits)
    (hb3 : 4 ≤ b.maxSteps) (hb4 : 1 ≤ b.maxRounds)
    (hret : ∀ q k, tools.retrieveT q k = [e])
    (hdef : ∀ t k, tools.resolveDefinitionT t k = [e])
    (hcmp : ∀ ta tb k, tools.compareT ta tb k = [e]) :
    run_agent b tools anchorsOf cT refineB callRag question =
      some ⟨question, some (heuristicRoute cT question), [e], "", agentGenericRefusal, [],
            1, 4, 1, false, "tool_budget_exhausted", "tool_budget_exhausted"⟩ := by
  obtain ⟨m, hm⟩ : ∃ m, max 20 (b.maxSteps * 4) = m + 1 + 1 + 1 + 1 :=
    ⟨max 20 (b.maxSteps * 4) - 4, by omega⟩
  have hact := heuristicRoute_action cT question
  have hns1 : ¬ (b.maxSteps ≤ 1) := by omega
  have hns2 : ¬ (b.maxSteps ≤ 2) := by omega
  have hns3 : ¬ (b.maxSteps ≤ 3) := by omega
  have hnt : ¬ (b.maxToolCalls ≤ 0) := by omega
  have hnr : ¬ (b.maxRounds ≤ 0) := by omega
  have htool : b.maxToolCalls ≤ 1 := by omega
  have hlt : 1 < b.minEvidenceHits := by omega
  have hroute : node_route b cT (initState question) =
      ⟨question, some (heuristicRoute cT question), [], "", "", [], 0, 1, 0, false, "", ""⟩ := by
    simp [node_route, bumpStep, initState, stepLimitHit, hns1]
  have hedge1 : routeEdge
      ⟨question, some (heuristicRoute cT question), [], "", "", [], 0, 1, 0, false, "", ""⟩ =
      LCNode.retrieve := by
    rcases hact with h | h | h <;> simp [routeEdge, h]
  have hretrieve : node_retrieve b tools
      ⟨question, some (heuristicRoute cT question), [], "", "", [], 0, 1, 0, false, "", ""⟩ =
      ⟨question, some (heuristicRoute cT question), [e], "", "", [], 1, 2, 1, false, "", ""⟩ := by
    rcases hact with h | h | h <;>
      simp [node_retrieve, bumpStep, stepLimitHit, toolLimitHit, roundLimitHit,
        hns2, hnt, hnr, h, hret, hdef, hcmp, mergeEvidence, dedupBy]
  have hassess : node_assess_evidence b anchorsOf cT
      ⟨question, some (heuristicRoute cT question), [e], "", "", [], 1, 2, 1, false, "", ""⟩ =
      ⟨question, some (heuristicRoute cT question), [e], "", "", [], 1, 3, 1, false,
        "tool_budget_exhausted", ""⟩ := by
    simp [node_assess_evidence, bumpStep, budgetLimitReason, stepLimitHit, toolLimitHit,
      hns3, htool, hlt]
  have hedge2 : assessEdge b
      ⟨question, some (heuristicRoute cT question), [e], "", "", [], 1, 3, 1, false,
        "tool_budget_exhausted", ""⟩ = LCNode.verify_or_refuse := by
    simp [assessEdge, budgetLimitReason, stepLimitHit, toolLimitHit, hns3, htool]
  have hverify : node_verify_or_refuse
      ⟨question, some (heuristicRoute cT question), [e], "", "", [], 1, 3, 1, false,
        "tool_budget_exhausted", ""⟩ =
      ⟨question, some (heuristicRoute cT question), [e], "", agentGenericRefusal, [],
        1, 4, 1, false, "tool_budget_exhausted", "tool_budget_exhausted"⟩ := by
    have hmsg : refusalMessage "tool_budget_exhausted" = agentGenericRefusal := by decide
    simp [node_verify_or_refuse, bumpStep, deriveRefusalReason, hmsg, pyStrip, stripWith]
  simp only [run_agent]
  rw [hm]
  simp only [runGraphFrom]
  rw [hroute, hedge1]
  simp only [runGraphFrom]
  rw [hretrieve]
  rw [hassess, hedge2]
  simp only [runGraphFrom]
  rw [hverify]

/-- Witness for C4 at concrete budgets, tools and question. -/
theorem C4_tool_budget_refusal_witness :
    c4b.maxToolCalls = 1 ∧ 2 ≤ c4b.minEvidenceHits ∧ 4 ≤ c4b.maxSteps ∧ 1 ≤ c4b.maxRounds ∧
    run_agent c4b c4tools (fun _ => []) (fun _ => none) (fun st => (st.question, "no_change"))
      (fun _ _ => ("", [])) "q" =
      some ⟨"q", some (heuristicRoute (fun _ => none) "q"), [c4hit], "", agentGenericRefusal,
            [], 1, 4, 1, false, "tool_budget_exhausted", "tool_budget_exhausted"⟩ :=
  ⟨rfl, by decide, by decide, by decide,
    C4_tool_budget_refusal c4b c4tools (fun _ => []) (fun _ => none)
      (fun st => (st.question, "no_change")) (fun _ _ => ("", [])) "q" c4hit
      rfl (by decide) (by decide) (by decide)
      (fun _ _ => rfl) (fun _ _ => rfl) (fun _ _ _ => rfl)⟩

/-- Counterexample to the original claim C4: in the stated scenario the
budgets, counters and empty citations come out as claimed, but the final
answer is the agent's generic refusal message, not the canonical refusal
string `REFUSAL_TEXT` (`"not found in provided docs"`). -/
theorem C4_counter_not_canonical_refusal :
    ∃ st, run_agent c4b c4tools (fun _ => []) (fun _ => none)
        (fun st => (st.question, "no_change")) (fun _ _ => ("", [])) "q" = some st ∧
      st.tool_calls = 1 ∧ st.stop_reason = "tool_budget_exhausted" ∧
      st.refusal_reason = "tool_budget_exhausted" ∧ st.citations = [] ∧
      st.final_answer ≠ REFUSAL_TEXT := by
  refine ⟨⟨"q", some (heuristicRoute (fun _ => none) "q"), [c4hit], "", agentGenericRefusal,
            [], 1, 4, 1, false, "tool_budget_exhausted", "tool_budget_exhausted"⟩,
          ?_, rfl, rfl, rfl, rfl, by decide⟩
  rfl
